import Mathlib

/-!
Verification development for the `idalign` alignment engine
(`idalign/aligner.py`, `idalign/mapping_data.py`, `idalign/tagger.py`,
`idalign/union_find.py`).

The Python modules are shallowly embedded: dictionaries become association
lists (first-match lookup, overwrite-in-place insertion), Python sets become
lists deduplicated on insertion (insertion order is taken as the canonical
iteration order; every property proved below is independent of the set
iteration order), fallible code returns `Except`, and `None`-able values
become `Option`.
-/

namespace IdAlign

/-! ## Python string primitives

These are written over the character list `s.data` rather than through the
iterator-based core `String` functions, so that every pipeline run on a
concrete input reduces inside the kernel. -/

/-- ASCII lower-casing of one character (Python str.lower() on the ASCII
inputs the engine handles). -/
def lowerChar (c : Char) : Char :=
  if 'A' ≤ c ∧ c ≤ 'Z' then Char.ofNat (c.toNat + 32) else c

/-- Python str.lower() restricted to the ASCII inputs used by the engine. -/
def pyLower (s : String) : String := ⟨s.data.map lowerChar⟩

/-- Python str.strip(): drop whitespace from both ends. -/
def pyStrip (s : String) : String :=
  ⟨((s.data.dropWhile Char.isWhitespace).reverse.dropWhile
      Char.isWhitespace).reverse⟩

/-- Python str.startswith. -/
def pyStartsWith (s pre : String) : Bool := pre.data.isPrefixOf s.data

/-- Python `"." in s` (single-character containment). -/
def pyContainsChar (s : String) (c : Char) : Bool := s.data.contains c

/-- Python s[n:] (drop the first n characters). -/
def pyDrop (s : String) (n : Nat) : String := ⟨s.data.drop n⟩

/-- Python string `<` (lexicographic on code points), as used by
`sorted` on tuples of strings. -/
def pyLt (s t : String) : Bool := decide (s.data < t.data)

/-- Python truthiness of an optional string: `None` and `""` are falsy. -/
def pyTruthy : Option String → Bool
  | none => false
  | some s => s ≠ ""

/-- Python `x or y` on optional strings: `x` when truthy, else `y`. -/
def pyOr (x y : Option String) : Option String :=
  match x with
  | none => y
  | some s => if s = "" then y else some s

/-! ## Association lists (Python dict) -/

/-- Lookup of a key in an association list: dict `get`. -/
def alistGet? {α β : Type} [DecidableEq α] (l : List (α × β)) (k : α) : Option β :=
  (l.find? fun p => p.1 = k).map (·.2)

/-- Dict assignment `d[k] = v`: overwrite in place, or append a fresh entry. -/
def alistInsert {α β : Type} [DecidableEq α] : List (α × β) → α → β → List (α × β)
  | [], k, v => [(k, v)]
  | p :: rest, k, v => if p.1 = k then (k, v) :: rest else p :: alistInsert rest k v

/-- Python `set.add` on a list kept duplicate-free. -/
def listAddUnique {α : Type} [DecidableEq α] (l : List α) (x : α) : List α :=
  if x ∈ l then l else l ++ [x]

/-! ## Input data model (`omics_io/parse_obj.py`)

Only the fields the aligner reads are embedded; `matrix`, `attrs`, `role`
and `omics_type` are never consulted by `idalign`.  `entity` and
`namespace` may be `None` in the Python inputs, hence `Option String`
(the field `namespace` is spelled `ns` because `namespace` is reserved
in Lean). -/

structure FeatureRec where
  id : String
  entity : Option String
  ns : Option String
deriving DecidableEq, Repr

structure ColumnRec where
  id : String
  entity : Option String
  ns : Option String
deriving DecidableEq, Repr

structure CrossRef where
  src : String
  ns : String
  target : String
deriving DecidableEq, Repr

structure OmicData where
  name : String
  feature_meta : List FeatureRec
  column_meta : List ColumnRec
  cross_ref : List CrossRef
deriving DecidableEq, Repr

/-! ## Classification tables (`idalign/tagger.py`)

`tagger.py` assigns `TYPE_MAP` twice with literally identical contents
(the `IDS.predicates.*` constants expand to "modification", "produced_by",
"contains", "has_feature", "product"); the second assignment is the one in
force and is embedded here.  All tables are keyed by lowercased namespace
strings. -/

def TYPE_MAP : List (String × String) :=
  [("asap", "alias"), ("ecocyc", "alias"), ("geneid", "alias"),
   ("id", "alias"), ("kegg.compound", "alias"), ("name", "alias"),
   ("refmet", "alias"), ("workbench", "alias"), ("alias", "alias"),
   ("gene", "alias"), ("locus_tag", "alias"), ("run", "alias"),
   ("srx", "alias"),
   ("geo", "relation"), ("genotype", "relation"),
   ("modification", "relation"), ("produced_by", "relation"),
   ("contains", "relation"), ("has_feature", "relation"),
   ("product", "relation"),
   ("product_label", "relation"), ("protein_id", "relation"),
   ("uniprotkb/swiss-prot", "relation"), ("parent", "relation"),
   ("genbank", "relation")]

/-- Rule of `_REL_TYPE_MAP`: either a constant type string or a function of
the source type (Python distinguishes the two with `callable(rule)`). -/
inductive RelTypeRule
  | const (t : String)
  | fn (f : String → String)

/-- Application of a `_REL_TYPE_MAP` rule:
`rule(source_type) if callable(rule) else rule`. -/
def RelTypeRule.apply : RelTypeRule → String → String
  | .const t, _ => t
  | .fn f, a => f a

/-- Table `_REL_TYPE_MAP`.  Note: the source entry for "geo" is
`IDS.type.study`, but `_Entity` in `omics_io/identifiers.py` declares no
`study` field (an import-time slip in the source); it is modelled as the
string "study" that the attribute access plainly names, following the
pattern of every other `_Entity` field.  No claim exercises "geo". -/
def REL_TYPE_MAP : List (String × RelTypeRule) :=
  [("protein_id", .const "protein"),
   ("uniprotkb/swiss-prot", .const "protein"),
   ("kegg.compound", .const "metabolite"),
   ("modification", .fn fun a => a),
   ("parent", .const "dna"),
   ("contains", .fn fun a => a),
   ("produced_by", .fn fun a => if a = "gene" then "protein" else "unknown"),
   ("product_label", .const "protein"),
   ("product", .const "protein"),
   ("geo", .const "study")]

def REGISTRY_NS : List String :=
  ["geneid", "uniprot", "uniprotkb", "ensembl", "refseq", "ecocyc", "asap",
   "chebi", "kegg", "hmdb", "pubchem", "genbank_reference",
   "refseq.locus_tag", "kegg.compound"]

def LOCAL_NS : List String :=
  ["gene", "gene_name", "gene_symbol", "symbol", "synonym", "gene_synonym",
   "locus_tag", "name", "id", "workbench"]

def REL_NS_TO_REGISTRY : List (String × String) :=
  [("uniprotkb/swiss-prot", "uniprot"), ("protein_id", "protein"),
   ("genbank", "dna"), ("parent", "dna"), ("contains", "dna"),
   ("modification", "metabolite"), ("produced_by", "protein"),
   ("product_label", "protein")]

def REL_NS_TO_PREDICATE : List (String × String) :=
  [("uniprotkb/swiss-prot", "product"), ("protein_id", "product"),
   ("produced_by", "produced_by"), ("product_label", "product"),
   ("parent", "part_of"), ("contains", "contains"),
   ("genbank", "contains"), ("modification", "modification")]

/-- Classifier `tag_record`: unknown namespaces are "unclassified". -/
def tag_record (ns : String) : String :=
  match alistGet? TYPE_MAP (pyLower ns) with
  | none => "unclassified"
  | some t => t

/-- Type inference `derive_type` for relation targets. -/
def derive_type (ns source_type : String) : String :=
  match alistGet? REL_TYPE_MAP (pyLower ns) with
  | none => "unknown"
  | some rule => rule.apply source_type

/-- Feature scope `normalize_feature_scope`: registries (or dotted
namespaces) are global; local labels map to the dataset scope; empty maps
to the dataset scope; anything else is used verbatim. -/
def normalize_feature_scope (od : OmicData) (ns : Option String) : String :=
  let n := pyLower (pyStrip (ns.getD ""))
  if n = "" then pyLower (pyStrip od.name)
  else if n ∈ REGISTRY_NS ∨ pyContainsChar n '.' then n
  else if n ∈ LOCAL_NS then pyLower (pyStrip od.name)
  else n

/-- Alias-target scope `alias_target_scope`: `db_xref:<registry>` → that
registry (or the fallback when the suffix is empty); registry namespaces →
themselves; local labels → the source identifier's scope; else fallback. -/
def alias_target_scope (rel_ns src_scope fallback : String) : String :=
  let n := pyLower rel_ns
  if pyStartsWith n "db_xref:" then
    let rest := pyDrop n 8
    if rest = "" then fallback else rest
  else if n ∈ REGISTRY_NS then n
  else if n ∈ LOCAL_NS then src_scope
  else fallback

/-- Relation-target scope `relation_target_scope`. -/
def relation_target_scope (rel_ns fallback : String) : String :=
  let n := pyLower rel_ns
  match alistGet? REL_NS_TO_REGISTRY n with
  | some r => r
  | none =>
    if n ∈ REGISTRY_NS then n
    else if pyStartsWith n "db_xref:" then
      let rest := pyDrop n 8
      if rest = "" then fallback else rest
    else fallback

/-! ## Aligner types and helpers (`idalign/aligner.py`) -/

/-- A qualified identifier: (scope, identifier). -/
abbrev ScopedID := String × String

/-- A canonically ordered alias edge. -/
abbrev AliasKey := ScopedID × ScopedID

/-- A relation edge (source, predicate, target). -/
abbrev RelTriple := ScopedID × String × ScopedID

/-- Helper `key(scope, ident)`: the identifier is stripped, the scope kept. -/
def key (scope ident : String) : ScopedID := (scope, pyStrip ident)

/-- Python `sorted((k_src, k_tgt))` on two pairs of strings: ascending
lexicographic tuple order.  (When the first components are equal the
second components decide, which is the only case where symbolic scopes
appear in the proofs below.) -/
def pairLe (x y : ScopedID) : Bool :=
  if x.1 = y.1 then !(pyLt y.2 x.2) else pyLt x.1 y.1

/-- Canonical (sorted) alias edge. -/
def sortPair (x y : ScopedID) : AliasKey :=
  if pairLe x y then (x, y) else (y, x)

/-- Merge guard `alias_ok`: refuse when both types are missing, or when
both are present and differ. -/
def alias_ok (a b : ScopedID)
    (id_type inferred : List (ScopedID × String)) : Bool :=
  let ta := pyOr (alistGet? id_type a) (alistGet? inferred a)
  let tb := pyOr (alistGet? id_type b) (alistGet? inferred b)
  if ta.isNone && tb.isNone then false
  else ta.isNone || tb.isNone || ta == tb

/-! ## Union-find (`idalign/union_find.py`)

The embedding drops path compression (it changes the internal tree but
never the root returned by `find`, which is all the aligner observes) and
chases parent pointers with fuel `parent.length`, sufficient for the
acyclic parent maps the engine builds. -/

structure UnionFind where
  parent : List (ScopedID × ScopedID)
  rank : List (ScopedID × Nat)
deriving Repr

/-- Root chasing with explicit fuel. -/
def rootAux (parent : List (ScopedID × ScopedID)) : Nat → ScopedID → ScopedID
  | 0, x => x
  | fuel + 1, x =>
    match alistGet? parent x with
    | none => x
    | some p => if p = x then x else rootAux parent fuel p

/-- Representative of x's set (the pure part of `find`). -/
def UnionFind.findRoot (uf : UnionFind) (x : ScopedID) : ScopedID :=
  rootAux uf.parent uf.parent.length x

/-- Stateful `find`: lazily inserts an unseen key as its own singleton. -/
def UnionFind.find (uf : UnionFind) (x : ScopedID) : ScopedID × UnionFind :=
  match alistGet? uf.parent x with
  | none => (x, ⟨alistInsert uf.parent x x, alistInsert uf.rank x 0⟩)
  | some _ => (uf.findRoot x, uf)

/-- Union by rank. -/
def UnionFind.union (uf₀ : UnionFind) (a b : ScopedID) : UnionFind :=
  let (ra, uf₁) := uf₀.find a
  let (rb, uf) := uf₁.find b
  if ra = rb then uf
  else
    let rank_a := (alistGet? uf.rank ra).getD 0
    let rank_b := (alistGet? uf.rank rb).getD 0
    if rank_a < rank_b then { uf with parent := alistInsert uf.parent ra rb }
    else if rank_b < rank_a then { uf with parent := alistInsert uf.parent rb ra }
    else { parent := alistInsert uf.parent rb ra,
           rank := alistInsert uf.rank ra (rank_a + 1) }

/-! ## Stage 1: feature metadata (`collect_feature_scopes_and_types`) -/

/-- Accumulator step shared by the `feature_meta` and `column_meta` loops:
record the feature's scope and, when the entity hint is truthy, its
explicit type. -/
def collectStep (od : OmicData)
    (acc : List ((String × String) × String) × List (ScopedID × String))
    (fid : String) (entity : Option String) (ns : Option String) :
    List ((String × String) × String) × List (ScopedID × String) :=
  let scope := normalize_feature_scope od ns
  let feat_scope := alistInsert acc.1 (od.name, fid) scope
  let id_type :=
    if pyTruthy entity then alistInsert acc.2 (key scope fid) (entity.getD "")
    else acc.2
  (feat_scope, id_type)

/-- Stage 1: build `feat_scope` ((dataset, raw id) → scope) and `id_type`
(qualified id → explicit entity type). -/
def collect_feature_scopes_and_types (datasets : List OmicData) :
    List ((String × String) × String) × List (ScopedID × String) :=
  datasets.foldl
    (fun acc od =>
      let acc := od.feature_meta.foldl
        (fun acc f => collectStep od acc f.id f.entity f.ns) acc
      od.column_meta.foldl
        (fun acc f => collectStep od acc f.id f.entity f.ns) acc)
    ([], [])

/-! ## Stage 2: cross-reference ingest (`ingest_cross_refs`) -/

/-- Mutable state of the ingest loop. -/
structure IngestState where
  alias_edges : List AliasKey
  rel_edges : List RelTriple
  unknown_edges : List RelTriple
  inferred_type : List (ScopedID × String)
deriving Repr

/-- One cross-reference record of one dataset. -/
def ingestStep (od : OmicData)
    (feat_scope : List ((String × String) × String))
    (id_type : List (ScopedID × String))
    (st : IngestState) (cr : CrossRef) : IngestState :=
  let ds_default_scope := normalize_feature_scope od none
  let src_raw := pyStrip cr.src
  let tgt_raw := pyStrip cr.target
  let rel_ns := pyStrip (pyLower cr.ns)
  let tag := tag_record rel_ns
  let s_src := (alistGet? feat_scope (od.name, src_raw)).getD ds_default_scope
  if tag = "alias" then
    let s_tgt_fb := (alistGet? feat_scope (od.name, tgt_raw)).getD ds_default_scope
    let s_tgt := alias_target_scope rel_ns s_src s_tgt_fb
    let k_src := key s_src src_raw
    let k_tgt := key s_tgt tgt_raw
    let ts := alistGet? id_type k_src
    let tt := alistGet? id_type k_tgt
    let inf := st.inferred_type
    let inf :=
      if pyTruthy ts ∧ (alistGet? id_type k_tgt).isNone then
        alistInsert inf k_tgt (ts.getD "")
      else inf
    let inf :=
      if pyTruthy tt ∧ (alistGet? id_type k_src).isNone then
        alistInsert inf k_src (tt.getD "")
      else inf
    { st with
      alias_edges := listAddUnique st.alias_edges (sortPair k_src k_tgt),
      inferred_type := inf }
  else
    let s_tgt_fb := (alistGet? feat_scope (od.name, tgt_raw)).getD ds_default_scope
    let s_tgt := relation_target_scope rel_ns s_tgt_fb
    let k_src := key s_src src_raw
    let k_tgt := key s_tgt tgt_raw
    if tag = "relation" then
      let predicate := (alistGet? REL_NS_TO_PREDICATE rel_ns).getD rel_ns
      let src_t := (alistGet? id_type k_src).getD "unknown"
      let tgt_t := derive_type rel_ns src_t
      let inf :=
        if (alistGet? id_type k_tgt).isNone ∧ tgt_t ≠ "unknown" then
          alistInsert st.inferred_type k_tgt tgt_t
        else st.inferred_type
      { st with
        rel_edges := st.rel_edges ++ [(k_src, predicate, k_tgt)],
        inferred_type := inf }
    else
      { st with unknown_edges := st.unknown_edges ++ [(k_src, rel_ns, k_tgt)] }

/-- Stage 2: classify every cross-reference of every dataset into alias
edges (a deduplicated canonical set), relation edges (a list, multiplicity
preserved), unknown edges, and one-hop inferred types. -/
def ingest_cross_refs (datasets : List OmicData)
    (feat_scope : List ((String × String) × String))
    (id_type : List (ScopedID × String)) : IngestState :=
  datasets.foldl
    (fun st od => od.cross_ref.foldl (ingestStep od feat_scope id_type) st)
    ⟨[], [], [], []⟩

/-! ## Stage 3: union-find build (`build_union_find`) -/

/-- Helper `touch`: add the key to the universe and lazily register it. -/
def touch (st : UnionFind × List ScopedID) (k : ScopedID) :
    UnionFind × List ScopedID :=
  ((st.1.find k).2, listAddUnique st.2 k)

/-- One alias edge of the union loop: touch both endpoints, union when the
merge guard accepts. -/
def aliasStep (id_type inferred : List (ScopedID × String))
    (st : UnionFind × List ScopedID) (e : AliasKey) :
    UnionFind × List ScopedID :=
  let st := touch (touch st e.1) e.2
  if alias_ok e.1 e.2 id_type inferred then (st.1.union e.1 e.2, st.2) else st

/-- Stage 3: run accepted alias unions, then touch relation endpoints. -/
def build_union_find (alias_edges : List AliasKey) (rel_edges : List RelTriple)
    (id_type inferred : List (ScopedID × String)) :
    UnionFind × List ScopedID :=
  let st := alias_edges.foldl (aliasStep id_type inferred) (⟨[], []⟩, [])
  rel_edges.foldl (fun st t => touch (touch st t.1) t.2.2) st

/-! ## Stage 4: type resolution (`resolve_component_types`) -/

/-- Append a member to its root's bucket (defaultdict(list) append). -/
def alistAppend (m : List (ScopedID × List ScopedID)) (r k : ScopedID) :
    List (ScopedID × List ScopedID) :=
  alistInsert m r ((alistGet? m r).getD [] ++ [k])

/-- The type hint of one member: explicit first, else inferred. -/
def hintOf (id_type inferred : List (ScopedID × String)) (m : ScopedID) :
    Option String :=
  pyOr (alistGet? id_type m) (alistGet? inferred m)

/-- Distinct non-null hints of a member list (the Python set `known`
after `known.discard(None)`), as a deduplicated list. -/
def knownHints (id_type inferred : List (ScopedID × String))
    (members : List ScopedID) : List String :=
  (members.filterMap (hintOf id_type inferred)).dedup

/-- The group type: the sole hint when exactly one distinct hint exists,
otherwise "unknown". -/
def resolveTy (known : List String) : String :=
  match known with
  | [t] => t
  | _ => "unknown"

/-- Stage 4: bucket the universe by root and assign every member of each
bucket the bucket's resolved type. -/
def resolve_component_types (uf : UnionFind) (all_keys : List ScopedID)
    (id_type inferred : List (ScopedID × String)) :
    List (ScopedID × String) :=
  let root_to_members :=
    all_keys.foldl (fun m k => alistAppend m (uf.findRoot k) k) []
  root_to_members.foldl
    (fun ft e =>
      let ty := resolveTy (knownHints id_type inferred e.2)
      e.2.foldl (fun ft m => alistInsert ft m ty) ft)
    []

/-! ## Result structure (`idalign/mapping_data.py`) -/

/-- Member node: the source's frozen dataclass `Node(identifier, type,
namespace)` (field `namespace` spelled `ns`). -/
structure Node where
  identifier : String
  type : String
  ns : String
deriving DecidableEq, Repr

structure AlignmentResult where
  node_to_gid : List (Node × Nat)
  groups : List (Nat × List Node)
  group_relations : List ((Nat × String × Nat) × Nat)
  unknown_edges : List RelTriple
deriving Repr

/-! ## Stage 5: materialization (`materialize_alignment`) -/

/-- Memoizing `gid_for`: look the key's root up in the roots table,
assigning the next dense id on first encounter. -/
def gidFor (uf : UnionFind) (st : List (ScopedID × Nat) × Nat)
    (k : ScopedID) : Nat × (List (ScopedID × Nat) × Nat) :=
  let r := uf.findRoot k
  match alistGet? st.1 r with
  | some g => (g, st)
  | none => (st.2, (alistInsert st.1 r st.2, st.2 + 1))

/-- The node materialized for one qualified identifier. -/
def nodeOf (final_type : List (ScopedID × String)) (ksid : ScopedID) : Node :=
  ⟨ksid.2, (alistGet? final_type ksid).getD "unknown", ksid.1⟩

/-- State of the first materialization loop: gid memo, node→gid map,
groups table. -/
structure MatState where
  st : List (ScopedID × Nat) × Nat
  node_to_gid : List (Node × Nat)
  groups : List (Nat × List Node)

/-- First loop: place every key's node in its group. -/
def matStep (uf : UnionFind) (final_type : List (ScopedID × String))
    (acc : MatState) (ksid : ScopedID) : MatState :=
  let n := nodeOf final_type ksid
  let (gid, st) := gidFor uf acc.st ksid
  { st := st,
    node_to_gid := alistInsert acc.node_to_gid n gid,
    groups := alistInsert acc.groups gid
      (listAddUnique ((alistGet? acc.groups gid).getD []) n) }

/-- Second loop: aggregate relation edges by (gid, predicate, gid),
incrementing a counter per edge (defaultdict(int)). -/
def relStep (uf : UnionFind)
    (acc : (List (ScopedID × Nat) × Nat) × List ((Nat × String × Nat) × Nat))
    (t : RelTriple) :
    (List (ScopedID × Nat) × Nat) × List ((Nat × String × Nat) × Nat) :=
  let (ga, st) := gidFor uf acc.1 t.1
  let (gb, st) := gidFor uf st t.2.2
  (st, alistInsert acc.2 (ga, t.2.1, gb)
         ((alistGet? acc.2 (ga, t.2.1, gb)).getD 0 + 1))

/-- Stage 5: assign dense group ids in first-encounter order over the key
universe, build membership, then aggregate relations. -/
def materialize_alignment (uf : UnionFind) (all_keys : List ScopedID)
    (final_type : List (ScopedID × String)) (rel_edges : List RelTriple)
    (unknown_edges : List RelTriple) : AlignmentResult :=
  let m := all_keys.foldl (matStep uf final_type) ⟨([], 0), [], []⟩
  let r := rel_edges.foldl (relStep uf) (m.st, [])
  { node_to_gid := m.node_to_gid,
    groups := m.groups,
    group_relations := r.2,
    unknown_edges := unknown_edges }

/-- The whole pipeline `match_references`. -/
def match_references (datasets : List OmicData) : AlignmentResult :=
  let c := collect_feature_scopes_and_types datasets
  let ing := ingest_cross_refs datasets c.1 c.2
  let b := build_union_find ing.alias_edges ing.rel_edges c.2 ing.inferred_type
  let final_type := resolve_component_types b.1 b.2 c.2 ing.inferred_type
  materialize_alignment b.1 b.2 final_type ing.rel_edges ing.unknown_edges

/-! ## Result observables used in the claims

`memberGid` mirrors the test helper `find_gid` (the group that contains a
given (scope, identifier) member); `memberType` reads that member's
resolved type. -/

/-- The id of the (first) group containing the (scope, identifier) pair. -/
def memberGid (res : AlignmentResult) (ns ident : String) : Option Nat :=
  (res.groups.find? fun g =>
    g.2.any fun n => n.ns = ns ∧ n.identifier = ident).map (·.1)

/-- The resolved type recorded on the (scope, identifier) member. -/
def memberType (res : AlignmentResult) (ns ident : String) : Option String :=
  match (res.groups.map (·.2)).flatten.find?
      (fun n => n.ns = ns ∧ n.identifier = ident) with
  | some n => some n.type
  | none => none

/-- Derived view `connected_groups`: ids touched by at least one relation. -/
def AlignmentResult.connected_groups (res : AlignmentResult) : List Nat :=
  (res.group_relations.map (fun e => e.1.1) ++
   res.group_relations.map (fun e => e.1.2.2)).dedup

/-- Derived view `structural_orphans`: group ids with no relations. -/
def AlignmentResult.structural_orphans (res : AlignmentResult) : List Nat :=
  (res.groups.map (·.1)).filter (fun g => g ∉ res.connected_groups)

/-! ## Queries and persistence of `AlignmentResult`
(`idalign/mapping_data.py`)

Fallible Python code is embedded as `Except String`. -/

/-- Query `gid_of` as written in the source: it evaluates
`self.node_to_gid.get(Node(namespace, ident))`, but `Node` is a frozen
dataclass whose constructor takes the three required positional fields
`(identifier, type, namespace)`; the two-argument call therefore raises
`TypeError` (missing positional argument) before any lookup happens, on
every input.  (Even with a third argument supplied, the arguments would
bind `namespace` to `identifier` and `ident` to `type`, and
`node_to_gid` is keyed on full nodes including the resolved type the
caller does not know.) -/
def gid_of (res : AlignmentResult) (ns ident : String) :
    Except String (Option Nat) :=
  Except.error "TypeError: Node() missing 1 required positional argument"

/-- Alias membership row of the persistence frames
(columns gid, namespace, ident). -/
structure AliasRow where
  gid : Nat
  ns : String
  ident : String
deriving DecidableEq, Repr

/-- Relation row of the persistence frames
(columns gid_src, relation, gid_tgt, count). -/
structure RelRow where
  gid_src : Nat
  relation : String
  gid_tgt : Nat
  count : Nat
deriving DecidableEq, Repr

/-- Persistence `to_frames` as written: the alias-row comprehension reads
`n.ident` for every member node, but `Node` declares the field
`identifier` and no `ident`, so the comprehension raises
`AttributeError` at the first member; only a result with no member at all
reaches the return statement.  (`save` calls `to_frames` first, so it
fails the same way.) -/
def to_frames (res : AlignmentResult) :
    Except String (List AliasRow × List RelRow) :=
  if res.groups.all (fun g => g.2.isEmpty) then
    Except.ok ([],
      res.group_relations.map fun e => ⟨e.1.1, e.1.2.1, e.1.2.2, e.2⟩)
  else Except.error "AttributeError: Node object has no attribute ident"

/-- Reconstruction `from_frames` as written: it evaluates
`Node(str(row.namespace), str(row.ident))` — two positional arguments for
the three required fields of `Node` — so it raises `TypeError` at the
first alias row; only an empty alias frame avoids the constructor. -/
def from_frames (alias_df : List AliasRow) (rel_df : List RelRow) :
    Except String AlignmentResult :=
  match alias_df with
  | [] =>
    Except.ok
      { node_to_gid := [], groups := [],
        group_relations := rel_df.foldl
          (fun m r => alistInsert m (r.gid_src, r.relation, r.gid_tgt) r.count)
          [],
        unknown_edges := [] }
  | _ => Except.error "TypeError: Node() missing 1 required positional argument"

/-! ## Named pipeline projections (the lets of `match_references`) -/

/-- The explicit-type map `id_type` the pipeline computes. -/
def idTypeOf (datasets : List OmicData) : List (ScopedID × String) :=
  (collect_feature_scopes_and_types datasets).2

/-- The inferred-type map the pipeline computes. -/
def inferredOf (datasets : List OmicData) : List (ScopedID × String) :=
  (ingest_cross_refs datasets (collect_feature_scopes_and_types datasets).1
    (collect_feature_scopes_and_types datasets).2).inferred_type

/-- The relation-edge list the pipeline computes. -/
def relEdgesOf (datasets : List OmicData) : List RelTriple :=
  (ingest_cross_refs datasets (collect_feature_scopes_and_types datasets).1
    (collect_feature_scopes_and_types datasets).2).rel_edges

/-- The distinct non-null hints of the members of group `g` of the result,
read back through the pipeline's hint maps (the set the spec calls "the
set of distinct non-null type hints among its members"). -/
def groupHintsOf (datasets : List OmicData) (g : Nat) : Option (List String) :=
  (alistGet? (match_references datasets).groups g).map fun mem =>
    knownHints (idTypeOf datasets) (inferredOf datasets)
      (mem.map fun n => (n.ns, n.identifier))

/-! ## Concrete and parameterized inputs used by the claims -/

/-- Dataset "rna" of the registry-bridging scenario (spec §8): feature
`sad` (type gene, local namespace `gene`) with cross-refs to
`geneid:947440` and `locus_tag:b1525`. -/
def dsRNA : OmicData :=
  { name := "rna",
    feature_meta := [⟨"sad", some "gene", some "gene"⟩],
    column_meta := [],
    cross_ref := [⟨"sad", "geneid", "947440"⟩, ⟨"sad", "locus_tag", "b1525"⟩] }

/-- Dataset "protein" of the registry-bridging scenario: feature `947440`
(type gene) under the registry namespace `geneid`, no cross-refs. -/
def dsProt : OmicData :=
  { name := "protein",
    feature_meta := [⟨"947440", some "gene", some "geneid"⟩],
    column_meta := [],
    cross_ref := [] }

/-- An input whose result has members (used against the broken
persistence and `gid_of`). -/
def resBridge : AlignmentResult := match_references [dsRNA, dsProt]

/-- Counterexample input for the merge guard: `a` is explicitly gene and
`b` explicitly protein, a direct alias edge joins them, and a chain of
alias edges through the untyped `x`, `y`, `w` joins them anyway (`x`
inherits gene from `a`, `w` inherits protein from `b`, but `x–y` and
`y–w` are unions of an untyped side and are accepted). -/
def dsChain : OmicData :=
  { name := "d",
    feature_meta := [⟨"a", some "gene", none⟩, ⟨"b", some "protein", none⟩],
    column_meta := [],
    cross_ref := [⟨"a", "alias", "b"⟩, ⟨"a", "alias", "x"⟩,
                  ⟨"x", "alias", "y"⟩, ⟨"y", "alias", "w"⟩,
                  ⟨"w", "alias", "b"⟩] }

/-- A minimal input with a single alias edge between two identifiers with
the given explicit entity types. -/
def dsPairTyped (t1 t2 : Option String) : OmicData :=
  { name := "d",
    feature_meta := [⟨"a", t1, none⟩, ⟨"b", t2, none⟩],
    column_meta := [],
    cross_ref := [⟨"a", "alias", "b"⟩] }

/-- A minimal input with a single alias edge and no feature metadata at
all: neither endpoint has any known type. -/
def dsUntypedEdge : OmicData :=
  { name := "d", feature_meta := [], column_meta := [],
    cross_ref := [⟨"a", "alias", "b"⟩] }

/-- Counterexample input for type resolution: the one explicit hint is the
literal string "unknown" (a truthy Python string, kept by the code). -/
def dsUnknownHint : OmicData :=
  { name := "d",
    feature_meta := [⟨"a", some "unknown", none⟩],
    column_meta := [],
    cross_ref := [⟨"a", "alias", "b"⟩] }

/-- A dataset declaring the local-label feature `sad` (namespace `gene`)
with a local synonym cross-ref `sad→locus_tag:b1525` — the scope-isolation
scenario, parameterized by the dataset name. -/
def dsLocal (nm : String) : OmicData :=
  { name := nm,
    feature_meta := [⟨"sad", some "gene", some "gene"⟩],
    column_meta := [],
    cross_ref := [⟨"sad", "locus_tag", "b1525"⟩] }

/-! ## Definitions used to state and prove the correspondence lemmas -/

/-- The union-find structure `match_references` settles on. -/
def ufOf (datasets : List OmicData) : UnionFind :=
  (build_union_find
    (ingest_cross_refs datasets (collect_feature_scopes_and_types datasets).1
      (collect_feature_scopes_and_types datasets).2).alias_edges
    (ingest_cross_refs datasets (collect_feature_scopes_and_types datasets).1
      (collect_feature_scopes_and_types datasets).2).rel_edges
    (collect_feature_scopes_and_types datasets).2
    (ingest_cross_refs datasets (collect_feature_scopes_and_types datasets).1
      (collect_feature_scopes_and_types datasets).2).inferred_type).1

/-- The key universe (`all_keys`) `match_references` builds. -/
def allKeysOf (datasets : List OmicData) : List ScopedID :=
  (build_union_find
    (ingest_cross_refs datasets (collect_feature_scopes_and_types datasets).1
      (collect_feature_scopes_and_types datasets).2).alias_edges
    (ingest_cross_refs datasets (collect_feature_scopes_and_types datasets).1
      (collect_feature_scopes_and_types datasets).2).rel_edges
    (collect_feature_scopes_and_types datasets).2
    (ingest_cross_refs datasets (collect_feature_scopes_and_types datasets).1
      (collect_feature_scopes_and_types datasets).2).inferred_type).2

/-- The resolved-type map `match_references` computes. -/
def finalTypeOf (datasets : List OmicData) : List (ScopedID × String) :=
  resolve_component_types (ufOf datasets) (allKeysOf datasets)
    (idTypeOf datasets) (inferredOf datasets)

/-- The group id the materializer's roots table gives a key (lookup of the
key's root). -/
def matGid (uf : UnionFind) (rm : List (ScopedID × Nat)) (k : ScopedID) :
    Option Nat :=
  alistGet? rm (uf.findRoot k)

/-- The first materialization pass of `match_references`. -/
def matPassOf (datasets : List OmicData) : MatState :=
  (allKeysOf datasets).foldl (matStep (ufOf datasets) (finalTypeOf datasets))
    ⟨([], 0), [], []⟩

/-- The result-level group of a qualified identifier: the group of which
it is a member. -/
def resGid (datasets : List OmicData) (k : ScopedID) : Option Nat :=
  memberGid (match_references datasets) k.1 k.2

/-- The unknown-edge list `match_references` carries through. -/
def unknownEdgesOf (datasets : List OmicData) : List RelTriple :=
  (ingest_cross_refs datasets (collect_feature_scopes_and_types datasets).1
    (collect_feature_scopes_and_types datasets).2).unknown_edges

/-- Multiplicity of the relation edges whose endpoints are members of the
source and target groups of `q` and whose predicate is `q`'s: the `N` of
the relation-aggregation property. -/
def relCountOf (datasets : List OmicData) (q : Nat × String × Nat) : Nat :=
  (relEdgesOf datasets).countP fun t =>
    decide (resGid datasets t.1 = some q.1) && decide (t.2.1 = q.2.1) &&
    decide (resGid datasets t.2.2 = some q.2.2)

/-- Uniqueness of keys of an association list. -/
def NoDupKeys {α β : Type} (l : List (α × β)) : Prop := (l.map (·.1)).Nodup

/-- Invariant of the first materialization loop after the keys
`processed` have been folded into the accumulator `acc`: the roots table
assigns ids below the counter, covers every processed key's root,
is injective, and the groups table holds exactly the processed keys of
each assigned id, in processing order, as nodes. -/
structure MatInv (uf : UnionFind) (ft : List (ScopedID × String))
    (processed : List ScopedID) (acc : MatState) : Prop where
  bound : ∀ r g, alistGet? acc.st.1 r = some g → g < acc.st.2
  dom : ∀ k ∈ processed, (matGid uf acc.st.1 k).isSome
  inj : ∀ r r' g, alistGet? acc.st.1 r = some g →
    alistGet? acc.st.1 r' = some g → r = r'
  rootsOnly : ∀ r g, alistGet? acc.st.1 r = some g →
    ∃ k ∈ processed, uf.findRoot k = r
  ndg : NoDupKeys acc.groups
  groups_eq : ∀ g, alistGet? acc.groups g =
    if (processed.filter fun k =>
        decide (matGid uf acc.st.1 k = some g)).isEmpty then none
    else some ((processed.filter fun k =>
        decide (matGid uf acc.st.1 k = some g)).map (nodeOf ft))

/-! ## Association-list lemmas -/

@[simp] theorem alistGet?_nil {α β : Type} [DecidableEq α] (k : α) :
    alistGet? ([] : List (α × β)) k = none := rfl

@[simp] theorem alistGet?_cons {α β : Type} [DecidableEq α]
    (p : α × β) (l : List (α × β)) (k : α) :
    alistGet? (p :: l) k = if p.1 = k then some p.2 else alistGet? l k := by
  by_cases h : p.1 = k <;> simp [alistGet?, List.find?, h]

theorem alistGet?_insert_self {α β : Type} [DecidableEq α]
    (l : List (α × β)) (k : α) (v : β) :
    alistGet? (alistInsert l k v) k = some v := by
  induction l with
  | nil => simp [alistInsert]
  | cons p rest ih =>
    by_cases h : p.1 = k
    · simp [alistInsert, h]
    · simp [alistInsert, h, ih]

theorem alistGet?_insert_ne {α β : Type} [DecidableEq α]
    (l : List (α × β)) (k k' : α) (v : β) (h : k ≠ k') :
    alistGet? (alistInsert l k v) k' = alistGet? l k' := by
  induction l with
  | nil => simp [alistInsert, h]
  | cons p rest ih =>
    by_cases hp : p.1 = k
    · simp [alistInsert, hp, h]
    · simp [alistInsert, hp, ih]

theorem alistGet?_insert {α β : Type} [DecidableEq α]
    (l : List (α × β)) (k k' : α) (v : β) :
    alistGet? (alistInsert l k v) k' =
      if k = k' then some v else alistGet? l k' := by
  by_cases h : k = k'
  · subst h; simp [alistGet?_insert_self]
  · simp [h, alistGet?_insert_ne l k k' v h]

theorem alistGet?_insert_isSome {α β : Type} [DecidableEq α]
    (l : List (α × β)) (k k' : α) (v : β)
    (h : (alistGet? l k').isSome) :
    (alistGet? (alistInsert l k v) k').isSome := by
  rw [alistGet?_insert]
  by_cases hk : k = k' <;> simp [hk, h]

/-- An existing binding survives an insertion at an unbound key. -/
theorem alistGet?_insert_of_get {α β : Type} [DecidableEq α]
    (l : List (α × β)) (k k' : α) (v v' : β)
    (hnone : alistGet? l k = none) (h : alistGet? l k' = some v') :
    alistGet? (alistInsert l k v) k' = some v' := by
  rw [alistGet?_insert]
  rcases eq_or_ne k k' with rfl | hk
  · rw [hnone] at h; cases h
  · simp [hk, h]

/-- Lookup hits are list members. -/
theorem alistGet?_mem {α β : Type} [DecidableEq α]
    (l : List (α × β)) (k : α) (v : β) (h : alistGet? l k = some v) :
    (k, v) ∈ l := by
  induction l with
  | nil => simp at h
  | cons p rest ih =>
    rw [alistGet?_cons] at h
    by_cases hp : p.1 = k
    · rw [if_pos hp] at h
      have hpv : p = (k, v) := by
        rcases p with ⟨p1, p2⟩
        simp only [Option.some.injEq] at h
        simp_all
      rw [hpv]
      exact List.mem_cons_self _ _
    · rw [if_neg hp] at h
      exact List.mem_cons_of_mem _ (ih h)

/-- With duplicate-free keys, every member is the lookup of its key. -/
theorem alistGet?_of_mem {α β : Type} [DecidableEq α]
    (l : List (α × β)) (k : α) (v : β)
    (hnd : NoDupKeys l) (h : (k, v) ∈ l) :
    alistGet? l k = some v := by
  induction l with
  | nil => simp at h
  | cons p rest ih =>
    rcases List.mem_cons.mp h with rfl | hmem
    · simp
    · have hk : p.1 ≠ k := by
        intro hpk
        have : k ∈ rest.map (·.1) := List.mem_map_of_mem _ hmem
        rw [NoDupKeys, List.map_cons, List.nodup_cons, hpk] at hnd
        exact hnd.1 this
      rw [alistGet?_cons, if_neg hk]
      exact ih (List.Nodup.of_cons hnd) hmem

theorem noDupKeys_nil {α β : Type} : NoDupKeys ([] : List (α × β)) := by
  simp [NoDupKeys]

/-- The keys of an insertion: unchanged on overwrite, appended when new. -/
theorem alistInsert_keys {α β : Type} [DecidableEq α]
    (l : List (α × β)) (k : α) (v : β) :
    (alistInsert l k v).map (·.1) =
      if k ∈ l.map (·.1) then l.map (·.1) else l.map (·.1) ++ [k] := by
  induction l with
  | nil => simp [alistInsert]
  | cons p rest ih =>
    by_cases hp : p.1 = k
    · simp [alistInsert, hp]
    · have hk : ¬k = p.1 := fun h => hp h.symm
      rw [alistInsert, if_neg hp, List.map_cons, ih, List.map_cons]
      by_cases hmem : k ∈ rest.map (·.1) <;>
        simp [hmem, List.mem_cons, hk]

/-- Overwrite-or-append insertion keeps keys duplicate-free. -/
theorem noDupKeys_insert {α β : Type} [DecidableEq α]
    (l : List (α × β)) (k : α) (v : β) (hnd : NoDupKeys l) :
    NoDupKeys (alistInsert l k v) := by
  rw [NoDupKeys, alistInsert_keys]
  by_cases hmem : k ∈ l.map (·.1)
  · simpa [hmem] using hnd
  · rw [if_neg hmem]
    simp only [List.nodup_append, List.nodup_cons]
    exact ⟨hnd, by simp, by simpa [List.disjoint_singleton] using hmem⟩

/-- Unbound keys are exactly the absent keys. -/
theorem alistGet?_eq_none_iff {α β : Type} [DecidableEq α]
    (l : List (α × β)) (k : α) :
    alistGet? l k = none ↔ k ∉ l.map (·.1) := by
  induction l with
  | nil => simp
  | cons p rest ih =>
    rw [alistGet?_cons, List.map_cons]
    by_cases hp : p.1 = k
    · constructor
      · intro h
        rw [if_pos hp] at h
        cases h
      · intro h
        exact absurd (by rw [hp]; exact List.mem_cons_self _ _) h
    · rw [if_neg hp, ih]
      constructor
      · intro h hmem
        rcases List.mem_cons.mp hmem with h1 | h1
        · exact hp h1.symm
        · exact h h1
      · intro h hmem
        exact h (List.mem_cons_of_mem _ hmem)

/-- With duplicate-free keys, an association list holds at most one entry
per key: the count of entries at a key is one when bound, zero when not. -/
theorem countP_key {α β : Type} [DecidableEq α]
    (l : List (α × β)) (q : α) (hnd : NoDupKeys l) :
    l.countP (fun e => decide (e.1 = q)) =
      if (alistGet? l q).isSome then 1 else 0 := by
  induction l with
  | nil => simp
  | cons p rest ih =>
    rw [NoDupKeys, List.map_cons, List.nodup_cons] at hnd
    rw [List.countP_cons, alistGet?_cons]
    by_cases hp : p.1 = q
    · have hrest : alistGet? rest q = none := by
        rw [alistGet?_eq_none_iff]
        rw [hp] at hnd
        exact hnd.1
      have : rest.countP (fun e => decide (e.1 = q)) = 0 := by
        rw [ih hnd.2, hrest]
        simp
      simp [hp, this]
    · simp [hp, ih hnd.2]

/-- Membership after a Python set `add`. -/
theorem mem_listAddUnique {α : Type} [DecidableEq α] (l : List α) (x y : α) :
    y ∈ listAddUnique l x ↔ y ∈ l ∨ y = x := by
  unfold listAddUnique
  by_cases hx : x ∈ l
  · simp only [if_pos hx]
    constructor
    · exact Or.inl
    · rintro (h | rfl)
      · exact h
      · exact hx
  · simp [if_neg hx]

/-- A set `add` preserves duplicate-freedom. -/
theorem listAddUnique_nodup {α : Type} [DecidableEq α] (l : List α) (x : α)
    (h : l.Nodup) : (listAddUnique l x).Nodup := by
  unfold listAddUnique
  by_cases hx : x ∈ l
  · simpa [hx]
  · simp only [if_neg hx, List.nodup_append, List.nodup_cons]
    exact ⟨h, by simp, by simpa [List.disjoint_singleton] using hx⟩

/-- The materialized node determines its qualified identifier. -/
theorem nodeOf_scoped (ft : List (ScopedID × String)) (k : ScopedID) :
    ((nodeOf ft k).ns, (nodeOf ft k).identifier) = k := rfl

theorem nodeOf_inj (ft : List (ScopedID × String)) (k k' : ScopedID)
    (h : nodeOf ft k = nodeOf ft k') : k = k' := by
  have h1 := congrArg Node.identifier h
  have h2 := congrArg Node.ns h
  simp only [nodeOf] at h1 h2
  exact Prod.ext h2 h1

theorem nodeOf_type (ft : List (ScopedID × String)) (k : ScopedID) :
    (nodeOf ft k).type = (alistGet? ft k).getD "unknown" := rfl

/-- When a predicate on entries holds exactly at one key value and some
entry carries that key, the first hit of `find?` carries that key. -/
theorem find?_key_eq {β : Type} (l : List (Nat × β)) (pred : Nat × β → Bool)
    (g0 : Nat) (hiff : ∀ e ∈ l, pred e = true ↔ e.1 = g0)
    (hex : ∃ e ∈ l, e.1 = g0) :
    (l.find? pred).map (·.1) = some g0 := by
  induction l with
  | nil => simp at hex
  | cons e rest ih =>
    rw [List.find?]
    by_cases hp : pred e = true
    · rw [hp]
      simp [(hiff e (List.mem_cons_self _ _)).mp hp]
    · rw [Bool.not_eq_true] at hp
      rw [hp]
      have he : e.1 ≠ g0 := fun h =>
        by simp [(hiff e (List.mem_cons_self _ _)).mpr h] at hp
      rcases hex with ⟨e', he', hg⟩
      rcases List.mem_cons.mp he' with rfl | hmem
      · exact absurd hg he
      · exact ih (fun x hx => hiff x (List.mem_cons_of_mem _ hx)) ⟨e', hmem, hg⟩

/-! ## The first materialization pass: invariant lemmas -/

theorem matGid_def (uf : UnionFind) (rm : List (ScopedID × Nat))
    (k : ScopedID) : matGid uf rm k = alistGet? rm (uf.findRoot k) := rfl

/-- One materialization step when the key's root is already assigned. -/
theorem matStep_eq_of_some (uf : UnionFind) (ft : List (ScopedID × String))
    (acc : MatState) (k : ScopedID) (g0 : Nat)
    (h : alistGet? acc.st.1 (uf.findRoot k) = some g0) :
    matStep uf ft acc k =
      { st := acc.st,
        node_to_gid := alistInsert acc.node_to_gid (nodeOf ft k) g0,
        groups := alistInsert acc.groups g0
          (listAddUnique ((alistGet? acc.groups g0).getD [])
            (nodeOf ft k)) } := by
  simp only [matStep, gidFor, h]

/-- One materialization step when the key's root is fresh. -/
theorem matStep_eq_of_none (uf : UnionFind) (ft : List (ScopedID × String))
    (acc : MatState) (k : ScopedID)
    (h : alistGet? acc.st.1 (uf.findRoot k) = none) :
    matStep uf ft acc k =
      { st := (alistInsert acc.st.1 (uf.findRoot k) acc.st.2, acc.st.2 + 1),
        node_to_gid := alistInsert acc.node_to_gid (nodeOf ft k) acc.st.2,
        groups := alistInsert acc.groups acc.st.2
          (listAddUnique ((alistGet? acc.groups acc.st.2).getD [])
            (nodeOf ft k)) } := by
  simp only [matStep, gidFor, h]

/-- The invariant survives one step on an unprocessed key. -/
theorem matInv_step (uf : UnionFind) (ft : List (ScopedID × String))
    (pre : List ScopedID) (acc : MatState) (k : ScopedID)
    (hinv : MatInv uf ft pre acc) (hk : k ∉ pre) :
    MatInv uf ft (pre ++ [k]) (matStep uf ft acc k) := by
  rcases hr : alistGet? acc.st.1 (uf.findRoot k) with _ | g0
  · -- fresh root: a new group id acc.st.2 is allocated
    rw [matStep_eq_of_none uf ft acc k hr]
    have hfresh : ∀ k' ∈ pre, ¬matGid uf acc.st.1 k' = some acc.st.2 := by
      intro k' hk' hEq
      exact absurd (hinv.bound _ _ hEq) (lt_irrefl _)
    have hnil : pre.filter
        (fun k' => decide (matGid uf acc.st.1 k' = some acc.st.2)) = [] := by
      rw [List.filter_eq_nil_iff]
      intro k' hk'
      simp [hfresh k' hk']
    have hgnone : alistGet? acc.groups acc.st.2 = none := by
      rw [hinv.groups_eq, hnil]
      simp
    have hroot_ne : ∀ k' ∈ pre, uf.findRoot k' ≠ uf.findRoot k := by
      intro k' hk' hEq
      have hd := hinv.dom k' hk'
      rw [matGid_def, hEq, hr] at hd
      simp at hd
    have hstab : ∀ k' ∈ pre,
        matGid uf (alistInsert acc.st.1 (uf.findRoot k) acc.st.2) k' =
          matGid uf acc.st.1 k' := by
      intro k' hk'
      rw [matGid_def, matGid_def,
        alistGet?_insert_ne _ _ _ _ (Ne.symm (hroot_ne k' hk'))]
    have hknew : matGid uf (alistInsert acc.st.1 (uf.findRoot k) acc.st.2) k =
        some acc.st.2 := by
      rw [matGid_def, alistGet?_insert_self]
    refine ⟨?_, ?_, ?_, ?_, ?_, ?_⟩
    · -- bound
      intro r g hg
      rw [alistGet?_insert] at hg
      by_cases hq : uf.findRoot k = r
      · rw [if_pos hq] at hg
        cases hg
        exact Nat.lt_succ_self _
      · rw [if_neg hq] at hg
        exact Nat.lt_succ_of_lt (hinv.bound _ _ hg)
    · -- dom
      intro k' hk'
      rcases List.mem_append.mp hk' with hmem | hmem
      · rw [hstab k' hmem]
        exact hinv.dom k' hmem
      · rw [List.mem_singleton.mp hmem, hknew]
        simp
    · -- inj
      intro r r' g h1 h2
      rw [alistGet?_insert] at h1 h2
      by_cases hq1 : uf.findRoot k = r <;> by_cases hq2 : uf.findRoot k = r'
      · rw [← hq1, ← hq2]
      · rw [if_pos hq1] at h1
        rw [if_neg hq2] at h2
        cases h1
        exact absurd (hinv.bound _ _ h2) (lt_irrefl _)
      · rw [if_neg hq1] at h1
        rw [if_pos hq2] at h2
        cases h2
        exact absurd (hinv.bound _ _ h1) (lt_irrefl _)
      · rw [if_neg hq1] at h1
        rw [if_neg hq2] at h2
        exact hinv.inj _ _ _ h1 h2
    · -- rootsOnly
      intro r g hg
      rw [alistGet?_insert] at hg
      by_cases hq : uf.findRoot k = r
      · exact ⟨k, List.mem_append_right _ (List.mem_singleton_self _), hq⟩
      · rw [if_neg hq] at hg
        rcases hinv.rootsOnly _ _ hg with ⟨k', hk', hroot⟩
        exact ⟨k', List.mem_append_left _ hk', hroot⟩
    · exact noDupKeys_insert _ _ _ hinv.ndg
    · -- groups_eq
      intro g
      have hbucket :
          listAddUnique ((alistGet? acc.groups acc.st.2).getD [])
            (nodeOf ft k) = [nodeOf ft k] := by
        rw [hgnone]
        rfl
      have hpre : pre.filter
          (fun k' => decide
            (matGid uf (alistInsert acc.st.1 (uf.findRoot k) acc.st.2) k' =
              some g)) =
          pre.filter (fun k' => decide (matGid uf acc.st.1 k' = some g)) :=
        List.filter_congr (fun k' hk' => by rw [hstab k' hk'])
      by_cases hgq : g = acc.st.2
      · subst hgq
        have hm : (pre ++ [k]).filter
            (fun k' => decide
              (matGid uf (alistInsert acc.st.1 (uf.findRoot k) acc.st.2) k' =
                some acc.st.2)) = [k] := by
          rw [List.filter_append, hpre, hnil, List.nil_append,
            List.filter_singleton, hknew]
          simp
        rw [hm, alistGet?_insert_self, hbucket]
        simp
      · have hgq' : ¬acc.st.2 = g := fun h => hgq h.symm
        have hm : (pre ++ [k]).filter
            (fun k' => decide
              (matGid uf (alistInsert acc.st.1 (uf.findRoot k) acc.st.2) k' =
                some g)) =
            pre.filter (fun k' => decide (matGid uf acc.st.1 k' = some g)) := by
          rw [List.filter_append, hpre, List.filter_singleton, hknew]
          simp [hgq']
        rw [hm, alistGet?_insert_ne _ _ _ _ (Ne.symm hgq)]
        exact hinv.groups_eq g
  · -- already-assigned root: the key joins group g0
    rw [matStep_eq_of_some uf ft acc k g0 hr]
    have hkg : matGid uf acc.st.1 k = some g0 := hr
    refine ⟨hinv.bound, ?_, hinv.inj, ?_, ?_, ?_⟩
    · intro k' hk'
      rcases List.mem_append.mp hk' with hmem | hmem
      · exact hinv.dom k' hmem
      · rw [List.mem_singleton.mp hmem, hkg]
        simp
    · intro r g hg
      rcases hinv.rootsOnly _ _ hg with ⟨k', hk', hroot⟩
      exact ⟨k', List.mem_append_left _ hk', hroot⟩
    · exact noDupKeys_insert _ _ _ hinv.ndg
    · intro g
      by_cases hgq : g = g0
      · subst hgq
        have hm : (pre ++ [k]).filter
            (fun k' => decide (matGid uf acc.st.1 k' = some g)) =
            pre.filter (fun k' => decide (matGid uf acc.st.1 k' = some g))
              ++ [k] := by
          rw [List.filter_append, List.filter_singleton, hkg]
          simp
        rw [hm, alistGet?_insert_self, hinv.groups_eq g]
        rcases hmem : pre.filter
            (fun k' => decide (matGid uf acc.st.1 k' = some g))
            with _ | ⟨m, ms⟩
        · simp [listAddUnique]
        · have hnotin : nodeOf ft k ∉ (m :: ms).map (nodeOf ft) := by
            intro hin
            rcases List.mem_map.mp hin with ⟨k', hk', hEq⟩
            have hkpre : k' ∈ pre := List.mem_of_mem_filter (hmem ▸ hk')
            exact hk ((nodeOf_inj ft k' k hEq) ▸ hkpre)
          simp only [List.isEmpty_cons, Bool.false_eq_true, if_false,
            Option.getD_some]
          rw [listAddUnique, if_neg hnotin]
          simp
      · have hgq' : ¬g0 = g := fun h => hgq h.symm
        have hm : (pre ++ [k]).filter
            (fun k' => decide (matGid uf acc.st.1 k' = some g)) =
            pre.filter (fun k' => decide (matGid uf acc.st.1 k' = some g)) := by
          rw [List.filter_append, List.filter_singleton, hkg]
          simp [hgq']
        rw [hm, alistGet?_insert_ne _ _ _ _ (fun h => hgq h.symm)]
        exact hinv.groups_eq g

/-- The invariant survives the whole pass. -/
theorem matInv_fold (uf : UnionFind) (ft : List (ScopedID × String)) :
    ∀ (suf pre : List ScopedID) (acc : MatState),
    MatInv uf ft pre acc → (pre ++ suf).Nodup →
    MatInv uf ft (pre ++ suf) (suf.foldl (matStep uf ft) acc) := by
  intro suf
  induction suf with
  | nil =>
    intro pre acc hinv _
    simpa using hinv
  | cons k suf ih =>
    intro pre acc hinv hnd
    have hk : k ∉ pre := by
      intro hmem
      rcases List.nodup_append.mp hnd with ⟨_, _, hdisj⟩
      exact hdisj hmem (List.mem_cons_self _ _)
    have hstep := matInv_step uf ft pre acc k hinv hk
    have hnd' : ((pre ++ [k]) ++ suf).Nodup := by
      rw [List.append_assoc, List.singleton_append]
      exact hnd
    have := ih (pre ++ [k]) (matStep uf ft acc k) hstep hnd'
    rw [List.append_assoc, List.singleton_append] at this
    simpa using this

/-- The invariant at the virgin state. -/
theorem matInv_init (uf : UnionFind) (ft : List (ScopedID × String)) :
    MatInv uf ft [] ⟨([], 0), [], []⟩ := by
  refine ⟨?_, ?_, ?_, ?_, ?_, ?_⟩
  · intro r g hg
    simp [alistGet?] at hg
  · intro k hk
    simp at hk
  · intro r r' g h1 h2
    simp [alistGet?] at h1
  · intro r g hg
    simp [alistGet?] at hg
  · exact noDupKeys_nil
  · intro g
    simp [alistGet?]

/-- The invariant holds of the finished first pass of `match_references`
whenever the key universe is duplicate-free. -/
theorem matInv_main (datasets : List OmicData)
    (hnd : (allKeysOf datasets).Nodup) :
    MatInv (ufOf datasets) (finalTypeOf datasets) (allKeysOf datasets)
      (matPassOf datasets) := by
  have := matInv_fold (ufOf datasets) (finalTypeOf datasets)
    (allKeysOf datasets) [] ⟨([], 0), [], []⟩
    (matInv_init _ _) (by simpa using hnd)
  simpa [matPassOf] using this

/-! ## The key universe of `build_union_find` -/

/-- Touching keys only grows the key list. -/
theorem touch_keys (st : UnionFind × List ScopedID) (k : ScopedID) :
    (touch st k).2 = listAddUnique st.2 k := rfl

/-- An alias step only grows the key list. -/
theorem aliasStep_keys (id_type inferred : List (ScopedID × String))
    (st : UnionFind × List ScopedID) (e : AliasKey) :
    (aliasStep id_type inferred st e).2 =
      listAddUnique (listAddUnique st.2 e.1) e.2 := by
  unfold aliasStep
  split <;> rfl

/-- Key lists stay duplicate-free through the alias pass. -/
theorem aliasFold_keys_nodup (id_type inferred : List (ScopedID × String)) :
    ∀ (edges : List AliasKey) (st : UnionFind × List ScopedID),
    st.2.Nodup →
    ((edges.foldl (aliasStep id_type inferred) st).2).Nodup := by
  intro edges
  induction edges with
  | nil => intro st h; exact h
  | cons e rest ih =>
    intro st h
    refine ih _ ?_
    rw [aliasStep_keys]
    exact listAddUnique_nodup _ _ (listAddUnique_nodup _ _ h)

/-- Keys present before the relation pass survive it, and every relation
endpoint is a key afterwards. -/
theorem relTouch_keys :
    ∀ (edges : List RelTriple) (st : UnionFind × List ScopedID),
    (∀ x ∈ st.2, x ∈ (edges.foldl (fun st t => touch (touch st t.1) t.2.2) st).2) ∧
    (∀ t ∈ edges,
      t.1 ∈ (edges.foldl (fun st t => touch (touch st t.1) t.2.2) st).2 ∧
      t.2.2 ∈ (edges.foldl (fun st t => touch (touch st t.1) t.2.2) st).2) := by
  intro edges
  induction edges with
  | nil =>
    intro st
    exact ⟨fun x hx => hx, fun t ht => absurd ht (List.not_mem_nil t)⟩
  | cons e rest ih =>
    intro st
    have hstep : ∀ x ∈ st.2, x ∈ (touch (touch st e.1) e.2.2).2 := by
      intro x hx
      rw [touch_keys, touch_keys]
      rw [mem_listAddUnique, mem_listAddUnique]
      exact Or.inl (Or.inl hx)
    have hsrc : e.1 ∈ (touch (touch st e.1) e.2.2).2 := by
      rw [touch_keys, touch_keys, mem_listAddUnique, mem_listAddUnique]
      exact Or.inl (Or.inr rfl)
    have htgt : e.2.2 ∈ (touch (touch st e.1) e.2.2).2 := by
      rw [touch_keys, touch_keys, mem_listAddUnique]
      exact Or.inr rfl
    constructor
    · intro x hx
      exact (ih (touch (touch st e.1) e.2.2)).1 x (hstep x hx)
    · intro t ht
      rcases List.mem_cons.mp ht with rfl | hmem
      · exact ⟨(ih _).1 _ hsrc, (ih _).1 _ htgt⟩
      · exact (ih _).2 t hmem

/-- The relation pass keeps the key list duplicate-free. -/
theorem relTouch_keys_nodup :
    ∀ (edges : List RelTriple) (st : UnionFind × List ScopedID),
    st.2.Nodup →
    ((edges.foldl (fun st t => touch (touch st t.1) t.2.2) st).2).Nodup := by
  intro edges
  induction edges with
  | nil => intro st h; exact h
  | cons e rest ih =>
    intro st h
    refine ih _ ?_
    rw [touch_keys, touch_keys]
    exact listAddUnique_nodup _ _ (listAddUnique_nodup _ _ h)

/-- The key universe of `build_union_find` is duplicate-free. -/
theorem build_union_find_keys_nodup (alias_edges : List AliasKey)
    (rel_edges : List RelTriple) (id_type inferred : List (ScopedID × String)) :
    ((build_union_find alias_edges rel_edges id_type inferred).2).Nodup := by
  unfold build_union_find
  exact relTouch_keys_nodup _ _
    (aliasFold_keys_nodup id_type inferred alias_edges (⟨[], []⟩, [])
      List.nodup_nil)

/-- Every relation endpoint belongs to the key universe. -/
theorem build_union_find_rel_mem (alias_edges : List AliasKey)
    (rel_edges : List RelTriple) (id_type inferred : List (ScopedID × String))
    (t : RelTriple) (ht : t ∈ rel_edges) :
    t.1 ∈ (build_union_find alias_edges rel_edges id_type inferred).2 ∧
    t.2.2 ∈ (build_union_find alias_edges rel_edges id_type inferred).2 := by
  unfold build_union_find
  exact (relTouch_keys rel_edges _).2 t ht

/-- The key universe of `match_references` is duplicate-free. -/
theorem allKeysOf_nodup (datasets : List OmicData) :
    (allKeysOf datasets).Nodup :=
  build_union_find_keys_nodup _ _ _ _

/-! ## The relation-aggregation pass -/

/-- One relation step when both endpoint roots are assigned: the roots
table is untouched and the edge's counter is incremented. -/
theorem relStep_eq (uf : UnionFind) (st : List (ScopedID × Nat) × Nat)
    (rels : List ((Nat × String × Nat) × Nat)) (t : RelTriple) (ga gb : Nat)
    (h1 : matGid uf st.1 t.1 = some ga) (h2 : matGid uf st.1 t.2.2 = some gb) :
    relStep uf (st, rels) t =
      (st, alistInsert rels (ga, t.2.1, gb)
        ((alistGet? rels (ga, t.2.1, gb)).getD 0 + 1)) := by
  rw [matGid_def] at h1 h2
  simp only [relStep, gidFor, h1, h2]

/-- The relation pass: with every endpoint root assigned, the roots table
comes out unchanged, the aggregation table keeps duplicate-free keys, and
each (source gid, predicate, target gid) key holds the initial count plus
the number of edges mapping to it — absent exactly when both are zero. -/
theorem relFold (uf : UnionFind) :
    ∀ (edges : List RelTriple) (st : List (ScopedID × Nat) × Nat)
      (rels : List ((Nat × String × Nat) × Nat)),
    (∀ t ∈ edges, (matGid uf st.1 t.1).isSome ∧
      (matGid uf st.1 t.2.2).isSome) →
    NoDupKeys rels →
    (edges.foldl (relStep uf) (st, rels)).1 = st ∧
    NoDupKeys (edges.foldl (relStep uf) (st, rels)).2 ∧
    ∀ q, alistGet? (edges.foldl (relStep uf) (st, rels)).2 q =
      (if (alistGet? rels q).isNone ∧
          edges.countP (fun t =>
            decide (matGid uf st.1 t.1 = some q.1) &&
            decide (t.2.1 = q.2.1) &&
            decide (matGid uf st.1 t.2.2 = some q.2.2)) = 0 then none
       else some ((alistGet? rels q).getD 0 +
         edges.countP (fun t =>
            decide (matGid uf st.1 t.1 = some q.1) &&
            decide (t.2.1 = q.2.1) &&
            decide (matGid uf st.1 t.2.2 = some q.2.2)))) := by
  intro edges
  induction edges with
  | nil =>
    intro st rels _ hnd
    refine ⟨rfl, hnd, ?_⟩
    intro q
    simp only [List.foldl_nil, List.countP_nil]
    rcases hv : alistGet? rels q with _ | v <;> simp [hv]
  | cons e rest ih =>
    intro st rels hdom hnd
    rcases hdom e (List.mem_cons_self _ _) with ⟨hs1, hs2⟩
    rcases Option.isSome_iff_exists.mp hs1 with ⟨ga, hga⟩
    rcases Option.isSome_iff_exists.mp hs2 with ⟨gb, hgb⟩
    have hstep := relStep_eq uf st rels e ga gb hga hgb
    rw [List.foldl_cons, hstep]
    have hdom' : ∀ t ∈ rest, (matGid uf st.1 t.1).isSome ∧
        (matGid uf st.1 t.2.2).isSome :=
      fun t ht => hdom t (List.mem_cons_of_mem _ ht)
    have hnd' : NoDupKeys (alistInsert rels (ga, e.2.1, gb)
        ((alistGet? rels (ga, e.2.1, gb)).getD 0 + 1)) :=
      noDupKeys_insert _ _ _ hnd
    rcases ih st _ hdom' hnd' with ⟨hst, hndf, hlook⟩
    refine ⟨hst, hndf, ?_⟩
    intro q
    rw [hlook q]
    have hpred : (fun t : RelTriple =>
        decide (matGid uf st.1 t.1 = some q.1) &&
        decide (t.2.1 = q.2.1) &&
        decide (matGid uf st.1 t.2.2 = some q.2.2)) e = true ↔
        (ga, e.2.1, gb) = q := by
      rcases q with ⟨q1, q2, q3⟩
      simp only [hga, hgb, Bool.and_eq_true, decide_eq_true_eq,
        Option.some.injEq, Prod.mk.injEq]
      tauto
    rw [List.countP_cons]
    by_cases hq : (ga, e.2.1, gb) = q
    · have hptrue := hpred.mpr hq
      rw [if_pos hptrue]
      rw [← hq]
      rw [alistGet?_insert_self]
      have : ¬((some ((alistGet? rels (ga, e.2.1, gb)).getD 0 + 1)).isNone
          = true) := by simp
      rw [if_neg (by simp)]
      have hcnt : ¬((alistGet? rels (ga, e.2.1, gb)).isNone ∧
          rest.countP (fun t =>
            decide (matGid uf st.1 t.1 = some (ga, e.2.1, gb).1) &&
            decide (t.2.1 = (ga, e.2.1, gb).2.1) &&
            decide (matGid uf st.1 t.2.2 = some (ga, e.2.1, gb).2.2)) +
            1 = 0) := by
        rintro ⟨_, hzero⟩
        omega
      rw [if_neg hcnt]
      congr 1
      simp only [Option.getD_some]
      omega
    · have hpfalse : ¬((fun t : RelTriple =>
          decide (matGid uf st.1 t.1 = some q.1) &&
          decide (t.2.1 = q.2.1) &&
          decide (matGid uf st.1 t.2.2 = some q.2.2)) e = true) :=
        fun h => hq (hpred.mp h)
      rw [if_neg hpfalse, alistGet?_insert_ne _ _ _ _ hq]
      simp

/-! ## The type-resolution stage -/

/-- The bucketing loop of `resolve_component_types`: each root's bucket
collects exactly the keys with that root, in processing order. -/
theorem rtmFold (uf : UnionFind) :
    ∀ (suf pre : List ScopedID) (m : List (ScopedID × List ScopedID)),
    (∀ r, alistGet? m r =
      (if (pre.filter fun k => decide (uf.findRoot k = r)).isEmpty then none
       else some (pre.filter fun k => decide (uf.findRoot k = r)))) →
    ∀ r, alistGet?
        (suf.foldl (fun m k => alistAppend m (uf.findRoot k) k) m) r =
      (if ((pre ++ suf).filter fun k =>
          decide (uf.findRoot k = r)).isEmpty then none
       else some ((pre ++ suf).filter fun k => decide (uf.findRoot k = r))) := by
  intro suf
  induction suf with
  | nil =>
    intro pre m hm r
    simp only [List.foldl_nil, List.append_nil]
    exact hm r
  | cons k suf ih =>
    intro pre m hm r
    rw [List.foldl_cons]
    have hnext : ∀ r', alistGet? (alistAppend m (uf.findRoot k) k) r' =
        (if ((pre ++ [k]).filter fun x =>
            decide (uf.findRoot x = r')).isEmpty then none
         else some ((pre ++ [k]).filter fun x =>
            decide (uf.findRoot x = r'))) := by
      intro r'
      unfold alistAppend
      by_cases hq : uf.findRoot k = r'
      · rw [← hq, alistGet?_insert_self, hm (uf.findRoot k)]
        have hfeq : (pre ++ [k]).filter
            (fun x => decide (uf.findRoot x = uf.findRoot k)) =
            pre.filter (fun x => decide (uf.findRoot x = uf.findRoot k))
              ++ [k] := by
          rw [List.filter_append, List.filter_singleton]
          simp
        rw [hfeq]
        rcases hp : pre.filter
            (fun x => decide (uf.findRoot x = uf.findRoot k)) with _ | ⟨m0, ms⟩
        · simp
        · simp
      · rw [alistGet?_insert_ne _ _ _ _ hq, hm r']
        have hfeq : (pre ++ [k]).filter
            (fun x => decide (uf.findRoot x = r')) =
            pre.filter (fun x => decide (uf.findRoot x = r')) := by
          rw [List.filter_append, List.filter_singleton]
          simp [hq]
        rw [hfeq]
    have := ih (pre ++ [k]) (alistAppend m (uf.findRoot k) k) hnext r
    rw [List.append_assoc, List.singleton_append] at this
    exact this

/-- The bucket table has duplicate-free keys. -/
theorem rtmFold_ndk (uf : UnionFind) :
    ∀ (keys : List ScopedID) (m : List (ScopedID × List ScopedID)),
    NoDupKeys m →
    NoDupKeys (keys.foldl (fun m k => alistAppend m (uf.findRoot k) k) m) := by
  intro keys
  induction keys with
  | nil => intro m h; exact h
  | cons k keys ih =>
    intro m h
    exact ih _ (noDupKeys_insert _ _ _ h)

/-- The per-bucket assignment loop: members get the bucket's type, other
keys are untouched. -/
theorem ftInner (ty : String) :
    ∀ (ms : List ScopedID) (ft : List (ScopedID × String)) (k : ScopedID),
    alistGet? (ms.foldl (fun ft m => alistInsert ft m ty) ft) k =
      if k ∈ ms then some ty else alistGet? ft k := by
  intro ms
  induction ms with
  | nil => intro ft k; simp
  | cons m ms ih =>
    intro ft k
    rw [List.foldl_cons, ih]
    by_cases hk : k ∈ ms
    · simp [hk]
    · rw [if_neg hk, alistGet?_insert]
      by_cases hm : m = k
      · simp [hm]
      · rw [if_neg hm, if_neg (by
          intro hcon
          rcases List.mem_cons.mp hcon with h | h
          · exact hm h.symm
          · exact hk h)]

/-- Buckets not containing a key never touch it. -/
theorem ftOuter_notin (id_type inferred : List (ScopedID × String)) :
    ∀ (L : List (ScopedID × List ScopedID))
      (ft0 : List (ScopedID × String)) (k : ScopedID),
    (∀ e ∈ L, k ∉ e.2) →
    alistGet? (L.foldl (fun ft e => e.2.foldl
      (fun ft m => alistInsert ft m
        (resolveTy (knownHints id_type inferred e.2))) ft) ft0) k =
      alistGet? ft0 k := by
  intro L
  induction L with
  | nil => intro ft0 k _; rfl
  | cons e L ih =>
    intro ft0 k hnot
    rw [List.foldl_cons, ih _ _ (fun e' he' => hnot e' (List.mem_cons_of_mem _ he')),
      ftInner, if_neg (hnot e (List.mem_cons_self _ _))]

/-- A key found in one bucket, and in no later bucket, ends with that
bucket's resolved type. -/
theorem ftOuter_in (id_type inferred : List (ScopedID × String))
    (L1 L2 : List (ScopedID × List ScopedID)) (r : ScopedID)
    (ms : List ScopedID) (ft0 : List (ScopedID × String)) (k : ScopedID)
    (hin : k ∈ ms) (hnot : ∀ e ∈ L2, k ∉ e.2) :
    alistGet? ((L1 ++ (r, ms) :: L2).foldl (fun ft e => e.2.foldl
      (fun ft m => alistInsert ft m
        (resolveTy (knownHints id_type inferred e.2))) ft) ft0) k =
      some (resolveTy (knownHints id_type inferred ms)) := by
  rw [List.foldl_append, List.foldl_cons,
    ftOuter_notin id_type inferred L2 _ k hnot, ftInner, if_pos hin]

/-- The resolved type of any key of the universe is the resolved type of
its root class (the keys sharing its union-find root, in universe
order). -/
theorem resolve_lookup (uf : UnionFind) (all_keys : List ScopedID)
    (id_type inferred : List (ScopedID × String)) (k : ScopedID)
    (hk : k ∈ all_keys) :
    alistGet? (resolve_component_types uf all_keys id_type inferred) k =
      some (resolveTy (knownHints id_type inferred
        (all_keys.filter fun x =>
          decide (uf.findRoot x = uf.findRoot k)))) := by
  have hrtm : ∀ r, alistGet?
      (all_keys.foldl (fun m k => alistAppend m (uf.findRoot k) k) []) r =
      (if (all_keys.filter fun x => decide (uf.findRoot x = r)).isEmpty
        then none
       else some (all_keys.filter fun x => decide (uf.findRoot x = r))) := by
    have := rtmFold uf all_keys [] [] (by intro r; simp)
    simpa using this
  have hndk : NoDupKeys
      (all_keys.foldl (fun m k => alistAppend m (uf.findRoot k) k) []) :=
    rtmFold_ndk uf all_keys [] noDupKeys_nil
  set cls := all_keys.filter fun x =>
    decide (uf.findRoot x = uf.findRoot k) with hcls
  have hkin : k ∈ cls := by
    rw [hcls]
    exact List.mem_filter.mpr ⟨hk, by simp⟩
  have hne : ¬cls.isEmpty := by
    rcases cls with _ | _
    · simp at hkin
    · simp
  have hlook : alistGet?
      (all_keys.foldl (fun m k => alistAppend m (uf.findRoot k) k) [])
      (uf.findRoot k) = some cls := by
    rw [hrtm (uf.findRoot k), if_neg (by exact hne)]
  have hmem := alistGet?_mem _ _ _ hlook
  rcases List.append_of_mem hmem with ⟨L1, L2, hsplit⟩
  have hnotL2 : ∀ e ∈ L2, k ∉ e.2 := by
    intro e he hke
    have hemem : e ∈ all_keys.foldl
        (fun m k => alistAppend m (uf.findRoot k) k) [] := by
      rw [hsplit]
      exact List.mem_append_right _ (List.mem_cons_of_mem _ he)
    have helook := alistGet?_of_mem _ e.1 e.2 hndk
      (by rcases e with ⟨e1, e2⟩; exact hemem)
    rw [hrtm e.1] at helook
    have he2 : e.2 = all_keys.filter fun x => decide (uf.findRoot x = e.1) := by
      by_cases hemp : (all_keys.filter fun x =>
          decide (uf.findRoot x = e.1)).isEmpty
      · rw [if_pos hemp] at helook
        cases helook
      · rw [if_neg hemp] at helook
        exact (Option.some.injEq _ _ ▸ helook).symm
    have hroot : uf.findRoot k = e.1 := by
      have := List.mem_filter.mp (he2 ▸ hke)
      simpa using this.2
    have hkeys : NoDupKeys (L1 ++ (uf.findRoot k, cls) :: L2) := by
      rw [← hsplit]
      exact hndk
    rw [NoDupKeys, List.map_append, List.map_cons] at hkeys
    rcases List.nodup_append.mp hkeys with ⟨_, hnd2, hdisj⟩
    rcases List.nodup_cons.mp hnd2 with ⟨hnotin, _⟩
    exact hnotin (hroot ▸ List.mem_map_of_mem (·.1) he)
  have hfin := ftOuter_in id_type inferred L1 L2 (uf.findRoot k) cls [] k
    hkin hnotL2
  rw [← hsplit] at hfin
  simpa [resolve_component_types] using hfin

/-! ## The result of `match_references`, read through the invariants -/

/-- `match_references` is literally the two materialization passes over
the settled union-find state. -/
theorem match_references_decomp (datasets : List OmicData) :
    match_references datasets =
      { node_to_gid := (matPassOf datasets).node_to_gid,
        groups := (matPassOf datasets).groups,
        group_relations := ((relEdgesOf datasets).foldl
          (relStep (ufOf datasets)) ((matPassOf datasets).st, [])).2,
        unknown_edges := unknownEdgesOf datasets } := rfl

/-- Every relation endpoint's root carries a group id after the first
pass. -/
theorem rel_endpoint_isSome (datasets : List OmicData) (t : RelTriple)
    (ht : t ∈ relEdgesOf datasets) :
    (matGid (ufOf datasets) (matPassOf datasets).st.1 t.1).isSome ∧
    (matGid (ufOf datasets) (matPassOf datasets).st.1 t.2.2).isSome := by
  have hmem := build_union_find_rel_mem
    (ingest_cross_refs datasets (collect_feature_scopes_and_types datasets).1
      (collect_feature_scopes_and_types datasets).2).alias_edges
    (ingest_cross_refs datasets (collect_feature_scopes_and_types datasets).1
      (collect_feature_scopes_and_types datasets).2).rel_edges
    (collect_feature_scopes_and_types datasets).2
    (ingest_cross_refs datasets (collect_feature_scopes_and_types datasets).1
      (collect_feature_scopes_and_types datasets).2).inferred_type t ht
  have hinv := matInv_main datasets (allKeysOf_nodup datasets)
  exact ⟨hinv.dom t.1 hmem.1, hinv.dom t.2.2 hmem.2⟩

/-- Membership of a node in a group bucket of the result: exactly the
universe keys of that group id, materialized. -/
theorem groups_mem_iff (datasets : List OmicData) (g : Nat) (mem : List Node)
    (hg : alistGet? (matPassOf datasets).groups g = some mem) (n : Node) :
    n ∈ mem ↔ ∃ x ∈ allKeysOf datasets,
      matGid (ufOf datasets) (matPassOf datasets).st.1 x = some g ∧
      nodeOf (finalTypeOf datasets) x = n := by
  have hinv := matInv_main datasets (allKeysOf_nodup datasets)
  have hiff := hinv.groups_eq g
  rw [hg] at hiff
  by_cases hemp : ((allKeysOf datasets).filter fun k =>
      decide (matGid (ufOf datasets) (matPassOf datasets).st.1 k =
        some g)).isEmpty
  · rw [if_pos hemp] at hiff
    cases hiff
  · rw [if_neg hemp] at hiff
    have hmemeq : mem = ((allKeysOf datasets).filter fun k =>
        decide (matGid (ufOf datasets) (matPassOf datasets).st.1 k =
          some g)).map (nodeOf (finalTypeOf datasets)) := by
      cases hiff
      rfl
    rw [hmemeq, List.mem_map]
    constructor
    · rintro ⟨x, hx, rfl⟩
      rcases List.mem_filter.mp hx with ⟨hxk, hxg⟩
      exact ⟨x, hxk, by simpa using hxg, rfl⟩
    · rintro ⟨x, hxk, hxg, rfl⟩
      exact ⟨x, List.mem_filter.mpr ⟨hxk, by simpa using hxg⟩, rfl⟩

/-- The bucket of a group id is the materialization of its universe
keys, in order. -/
theorem groups_bucket_eq (datasets : List OmicData) (g : Nat)
    (mem : List Node)
    (hg : alistGet? (matPassOf datasets).groups g = some mem) :
    mem = ((allKeysOf datasets).filter fun k =>
      decide (matGid (ufOf datasets) (matPassOf datasets).st.1 k =
        some g)).map (nodeOf (finalTypeOf datasets)) := by
  have hinv := matInv_main datasets (allKeysOf_nodup datasets)
  have hiff := hinv.groups_eq g
  rw [hg] at hiff
  by_cases hemp : ((allKeysOf datasets).filter fun k =>
      decide (matGid (ufOf datasets) (matPassOf datasets).st.1 k =
        some g)).isEmpty
  · rw [if_pos hemp] at hiff
    cases hiff
  · rw [if_neg hemp] at hiff
    cases hiff
    rfl

/-- The result-level group of a universe key is its materializer-assigned
group id. -/
theorem memberGid_eq (datasets : List OmicData) (k : ScopedID)
    (hk : k ∈ allKeysOf datasets) :
    memberGid (match_references datasets) k.1 k.2 =
      matGid (ufOf datasets) (matPassOf datasets).st.1 k := by
  have hinv := matInv_main datasets (allKeysOf_nodup datasets)
  rcases Option.isSome_iff_exists.mp (hinv.dom k hk) with ⟨g0, hg0⟩
  rw [hg0]
  have hgroups : (match_references datasets).groups =
      (matPassOf datasets).groups := rfl
  rw [memberGid, hgroups]
  apply find?_key_eq
  · intro e he
    have helook := alistGet?_of_mem _ e.1 e.2 hinv.ndg
      (by rcases e with ⟨e1, e2⟩; exact he)
    constructor
    · intro hpred
      rcases List.any_eq_true.mp hpred with ⟨n, hn, hmatch⟩
      rcases (groups_mem_iff datasets e.1 e.2 helook n).mp hn
        with ⟨x, hxk, hxg, hxn⟩
      have hxeq : x = k := by
        rcases x with ⟨x1, x2⟩
        have h1 : x1 = n.ns := by rw [← hxn]; rfl
        have h2 : x2 = n.identifier := by rw [← hxn]; rfl
        simp only [decide_eq_true_eq] at hmatch
        rcases hmatch with ⟨hm1, hm2⟩
        rcases k with ⟨k1, k2⟩
        simp only [Prod.mk.injEq]
        exact ⟨by rw [h1, hm1], by rw [h2, hm2]⟩
      rw [hxeq] at hxg
      rw [hxg] at hg0
      cases hg0
      rfl
    · intro he1
      subst he1
      have hn : nodeOf (finalTypeOf datasets) k ∈ e.2 :=
        (groups_mem_iff datasets e.1 e.2 helook _).mpr ⟨k, hk, hg0, rfl⟩
      refine List.any_eq_true.mpr ⟨nodeOf (finalTypeOf datasets) k, hn, ?_⟩
      simp [nodeOf]
  · have hbucket := hinv.groups_eq g0
    have hkfil : k ∈ (allKeysOf datasets).filter fun x =>
        decide (matGid (ufOf datasets) (matPassOf datasets).st.1 x =
          some g0) :=
      List.mem_filter.mpr ⟨hk, by simp [hg0]⟩
    have hne : ¬((allKeysOf datasets).filter fun x =>
        decide (matGid (ufOf datasets) (matPassOf datasets).st.1 x =
          some g0)).isEmpty := by
      rcases hfil : (allKeysOf datasets).filter fun x =>
          decide (matGid (ufOf datasets) (matPassOf datasets).st.1 x =
            some g0) with _ | _
      · rw [hfil] at hkfil
        simp at hkfil
      · simp
    rw [if_neg hne] at hbucket
    have := alistGet?_mem _ _ _ hbucket
    exact ⟨_, this, rfl⟩

/-- Pointwise-equal predicates count alike. -/
theorem countP_congr_mem {α : Type} (l : List α) (p q : α → Bool)
    (h : ∀ a ∈ l, p a = q a) : l.countP p = l.countP q := by
  induction l with
  | nil => rfl
  | cons a l ih =>
    rw [List.countP_cons, List.countP_cons,
      h a (List.mem_cons_self _ _),
      ih (fun a ha => h a (List.mem_cons_of_mem _ ha))]

/-- A key of the roots table with an assigned id heads a non-empty group
bucket. -/
theorem gid_mem_groups (datasets : List OmicData) (x : ScopedID) (g : Nat)
    (hx : x ∈ allKeysOf datasets)
    (hxg : matGid (ufOf datasets) (matPassOf datasets).st.1 x = some g) :
    g ∈ (match_references datasets).groups.map (·.1) := by
  have hinv := matInv_main datasets (allKeysOf_nodup datasets)
  have hbucket := hinv.groups_eq g
  have hxfil : x ∈ (allKeysOf datasets).filter fun k =>
      decide (matGid (ufOf datasets) (matPassOf datasets).st.1 k = some g) :=
    List.mem_filter.mpr ⟨hx, by simp [hxg]⟩
  have hne : ¬((allKeysOf datasets).filter fun k =>
      decide (matGid (ufOf datasets) (matPassOf datasets).st.1 k =
        some g)).isEmpty := by
    rcases hfil : (allKeysOf datasets).filter fun k =>
        decide (matGid (ufOf datasets) (matPassOf datasets).st.1 k = some g)
        with _ | _
    · rw [hfil] at hxfil
      simp at hxfil
    · simp
  rw [if_neg hne] at hbucket
  have hgroups : (match_references datasets).groups =
      (matPassOf datasets).groups := rfl
  rw [hgroups]
  by_contra hnotin
  rw [← alistGet?_eq_none_iff] at hnotin
  rw [hnotin] at hbucket
  cases hbucket

/-! ## Claim C5 -/

/-- C5: relation aggregation: for every (source group, predicate, target
group) triple, the result's relation table binds it to exactly the number
of ingested relation edges whose endpoints are members of those groups
under that predicate — absent when that number is zero — and the table
holds exactly one entry for the triple (no duplicated rows). -/
theorem C5_relation_aggregation (datasets : List OmicData)
    (q : Nat × String × Nat) :
    alistGet? (match_references datasets).group_relations q =
      (if relCountOf datasets q = 0 then none
       else some (relCountOf datasets q)) ∧
    (match_references datasets).group_relations.countP
        (fun e => decide (e.1 = q)) =
      (if relCountOf datasets q = 0 then 0 else 1) := by
  have hdom : ∀ t ∈ relEdgesOf datasets,
      (matGid (ufOf datasets) ((matPassOf datasets).st).1 t.1).isSome ∧
      (matGid (ufOf datasets) ((matPassOf datasets).st).1 t.2.2).isSome :=
    fun t ht => rel_endpoint_isSome datasets t ht
  rcases relFold (ufOf datasets) (relEdgesOf datasets)
      (matPassOf datasets).st [] hdom noDupKeys_nil with ⟨_, hnd, hlook⟩
  have hgr : (match_references datasets).group_relations =
      ((relEdgesOf datasets).foldl (relStep (ufOf datasets))
        ((matPassOf datasets).st, [])).2 := rfl
  have hcnt : (relEdgesOf datasets).countP (fun t =>
      decide (matGid (ufOf datasets) (matPassOf datasets).st.1 t.1 =
        some q.1) &&
      decide (t.2.1 = q.2.1) &&
      decide (matGid (ufOf datasets) (matPassOf datasets).st.1 t.2.2 =
        some q.2.2)) = relCountOf datasets q := by
    unfold relCountOf
    apply countP_congr_mem
    intro t ht
    have hmem := build_union_find_rel_mem
      (ingest_cross_refs datasets
        (collect_feature_scopes_and_types datasets).1
        (collect_feature_scopes_and_types datasets).2).alias_edges
      (ingest_cross_refs datasets
        (collect_feature_scopes_and_types datasets).1
        (collect_feature_scopes_and_types datasets).2).rel_edges
      (collect_feature_scopes_and_types datasets).2
      (ingest_cross_refs datasets
        (collect_feature_scopes_and_types datasets).1
        (collect_feature_scopes_and_types datasets).2).inferred_type t ht
    have hb1 := memberGid_eq datasets t.1 hmem.1
    have hb2 := memberGid_eq datasets t.2.2 hmem.2
    rw [resGid, resGid, hb1, hb2]
  have hlq := hlook q
  rw [hcnt] at hlq
  simp only [alistGet?_nil, Option.isNone_none, Option.getD_none,
    Nat.zero_add, true_and] at hlq
  constructor
  · rw [hgr, hlq]
  · rw [hgr, countP_key _ _ hnd, hlq]
    by_cases hz : relCountOf datasets q = 0
    · simp [hz]
    · simp [hz]

/-! ## Claim C6 -/

/-- C6: uniqueness of membership: two member nodes of groups of the
result carrying the same (scope, identifier) pair lie in the same group
and are the same node — the groups partition the key universe. -/
theorem C6_unique_membership (datasets : List OmicData) (g1 g2 : Nat)
    (mem1 mem2 : List Node) (n1 n2 : Node)
    (h1 : alistGet? (match_references datasets).groups g1 = some mem1)
    (h2 : alistGet? (match_references datasets).groups g2 = some mem2)
    (hn1 : n1 ∈ mem1) (hn2 : n2 ∈ mem2)
    (hns : n1.ns = n2.ns) (hid : n1.identifier = n2.identifier) :
    g1 = g2 ∧ n1 = n2 := by
  have hgroups : (match_references datasets).groups =
      (matPassOf datasets).groups := rfl
  rw [hgroups] at h1 h2
  rcases (groups_mem_iff datasets g1 mem1 h1 n1).mp hn1
    with ⟨x1, hx1k, hx1g, hx1n⟩
  rcases (groups_mem_iff datasets g2 mem2 h2 n2).mp hn2
    with ⟨x2, hx2k, hx2g, hx2n⟩
  have hx12 : x1 = x2 := by
    rcases x1 with ⟨a1, b1⟩
    rcases x2 with ⟨a2, b2⟩
    have e1 : a1 = n1.ns := by rw [← hx1n]; rfl
    have e2 : b1 = n1.identifier := by rw [← hx1n]; rfl
    have e3 : a2 = n2.ns := by rw [← hx2n]; rfl
    have e4 : b2 = n2.identifier := by rw [← hx2n]; rfl
    simp only [Prod.mk.injEq]
    exact ⟨by rw [e1, e3, hns], by rw [e2, e4, hid]⟩
  rw [hx12] at hx1g hx1n
  rw [hx2g] at hx1g
  cases hx1g
  exact ⟨rfl, by rw [← hx1n, ← hx2n]⟩

/-- C6 witness: the uniqueness theorem applied on the registry-bridging
result at the node carried by (rna, sad). -/
theorem C6_unique_membership_witness :
    (alistGet? resBridge.groups 0 =
        some [⟨"947440", "gene", "geneid"⟩, ⟨"sad", "gene", "rna"⟩,
              ⟨"b1525", "gene", "rna"⟩] ∧
      (⟨"sad", "gene", "rna"⟩ : Node) ∈
        [(⟨"947440", "gene", "geneid"⟩ : Node), ⟨"sad", "gene", "rna"⟩,
         ⟨"b1525", "gene", "rna"⟩]) ∧
    (0 = 0 ∧ (⟨"sad", "gene", "rna"⟩ : Node) = ⟨"sad", "gene", "rna"⟩) :=
  ⟨⟨by decide, by decide⟩,
    C6_unique_membership [dsRNA, dsProt] 0 0
      [⟨"947440", "gene", "geneid"⟩, ⟨"sad", "gene", "rna"⟩,
       ⟨"b1525", "gene", "rna"⟩]
      [⟨"947440", "gene", "geneid"⟩, ⟨"sad", "gene", "rna"⟩,
       ⟨"b1525", "gene", "rna"⟩]
      ⟨"sad", "gene", "rna"⟩ ⟨"sad", "gene", "rna"⟩ (by decide) (by decide)
      (by decide) (by decide) rfl rfl⟩

/-! ## Claim C7 (amended theorem) -/

/-- C7 (amended): every member of a group is assigned the group's
resolved type, namely the sole element of the set of distinct non-null
hints of its members when that set has exactly one element (even when
that element is the literal string "unknown"), and "unknown" otherwise.
The claimed equivalence holds except when the sole hint is itself the
string "unknown" (see the counterexample). -/
theorem C7_type_resolution (datasets : List OmicData) (g : Nat)
    (mem : List Node) (n : Node)
    (hg : alistGet? (match_references datasets).groups g = some mem)
    (hn : n ∈ mem) :
    n.type = resolveTy (knownHints (idTypeOf datasets) (inferredOf datasets)
      (mem.map fun n => (n.ns, n.identifier))) := by
  have hinv := matInv_main datasets (allKeysOf_nodup datasets)
  have hgroups : (match_references datasets).groups =
      (matPassOf datasets).groups := rfl
  rw [hgroups] at hg
  rcases (groups_mem_iff datasets g mem hg n).mp hn with ⟨x, hxk, hxg, hxn⟩
  have hmm : mem.map (fun n => (n.ns, n.identifier)) =
      (allKeysOf datasets).filter fun k =>
        decide (matGid (ufOf datasets) (matPassOf datasets).st.1 k =
          some g) := by
    rw [groups_bucket_eq datasets g mem hg, List.map_map]
    have hcomp : ((fun n : Node => (n.ns, n.identifier)) ∘
        nodeOf (finalTypeOf datasets)) = id := by
      funext y
      rfl
    rw [hcomp, List.map_id]
  have hfiltereq : ((allKeysOf datasets).filter fun k =>
      decide (matGid (ufOf datasets) (matPassOf datasets).st.1 k =
        some g)) =
      ((allKeysOf datasets).filter fun k =>
        decide ((ufOf datasets).findRoot k = (ufOf datasets).findRoot x)) := by
    apply List.filter_congr
    intro y hy
    have hiff : (matGid (ufOf datasets) (matPassOf datasets).st.1 y =
        some g) ↔
        ((ufOf datasets).findRoot y = (ufOf datasets).findRoot x) := by
      constructor
      · intro hyg
        exact hinv.inj _ _ _ hyg hxg
      · intro hroot
        rw [matGid_def, hroot, ← matGid_def]
        exact hxg
    simp only [decide_eq_decide]
    exact hiff
  rw [hmm, hfiltereq, ← hxn, nodeOf_type]
  rw [show finalTypeOf datasets = resolve_component_types (ufOf datasets)
    (allKeysOf datasets) (idTypeOf datasets) (inferredOf datasets) from rfl]
  rw [resolve_lookup (ufOf datasets) (allKeysOf datasets)
    (idTypeOf datasets) (inferredOf datasets) x hxk]
  rfl

/-- C7 witness: the amended theorem applied on the registry-bridging
result: the sole hint of group 0 is "gene" and every member gets type
"gene". -/
theorem C7_type_resolution_witness :
    (alistGet? resBridge.groups 0 =
        some [⟨"947440", "gene", "geneid"⟩, ⟨"sad", "gene", "rna"⟩,
              ⟨"b1525", "gene", "rna"⟩] ∧
      (⟨"sad", "gene", "rna"⟩ : Node) ∈
        [(⟨"947440", "gene", "geneid"⟩ : Node), ⟨"sad", "gene", "rna"⟩,
         ⟨"b1525", "gene", "rna"⟩]) ∧
    (Node.mk "sad" "gene" "rna").type =
      resolveTy (knownHints (idTypeOf [dsRNA, dsProt])
        (inferredOf [dsRNA, dsProt])
        ([(⟨"947440", "gene", "geneid"⟩ : Node), ⟨"sad", "gene", "rna"⟩,
          ⟨"b1525", "gene", "rna"⟩].map fun n => (n.ns, n.identifier))) :=
  ⟨⟨by decide, by decide⟩,
    C7_type_resolution [dsRNA, dsProt] 0
      [⟨"947440", "gene", "geneid"⟩, ⟨"sad", "gene", "rna"⟩,
       ⟨"b1525", "gene", "rna"⟩]
      ⟨"sad", "gene", "rna"⟩ (by decide) (by decide)⟩

/-! ## Claim C10 -/

/-- C10: the derived views partition the group ids: orphans and connected
groups are disjoint, and together they are exactly the keys of the groups
table — in particular every group id named by a relation tuple is a key of
the membership table. -/
theorem C10_views_partition (datasets : List OmicData) (g : Nat) :
    ((g ∈ (match_references datasets).structural_orphans ∨
      g ∈ (match_references datasets).connected_groups) ↔
      g ∈ (match_references datasets).groups.map (·.1)) ∧
    ((g ∈ (match_references datasets).structural_orphans ∧
      g ∈ (match_references datasets).connected_groups) ↔ False) := by
  have hdom : ∀ t ∈ relEdgesOf datasets,
      (matGid (ufOf datasets) ((matPassOf datasets).st).1 t.1).isSome ∧
      (matGid (ufOf datasets) ((matPassOf datasets).st).1 t.2.2).isSome :=
    fun t ht => rel_endpoint_isSome datasets t ht
  rcases relFold (ufOf datasets) (relEdgesOf datasets)
      (matPassOf datasets).st [] hdom noDupKeys_nil with ⟨_, hnd, hlook⟩
  have hgr : (match_references datasets).group_relations =
      ((relEdgesOf datasets).foldl (relStep (ufOf datasets))
        ((matPassOf datasets).st, [])).2 := rfl
  have hconn : ∀ g', g' ∈ (match_references datasets).connected_groups →
      g' ∈ (match_references datasets).groups.map (·.1) := by
    intro g' hg'
    rw [AlignmentResult.connected_groups] at hg'
    have hg'' := List.mem_dedup.mp hg'
    have hexists : ∃ e ∈ (match_references datasets).group_relations,
        e.1.1 = g' ∨ e.1.2.2 = g' := by
      rcases List.mem_append.mp hg'' with hsrc | htgt
      · rcases List.mem_map.mp hsrc with ⟨e, he, hfst⟩
        exact ⟨e, he, Or.inl hfst⟩
      · rcases List.mem_map.mp htgt with ⟨e, he, hfst⟩
        exact ⟨e, he, Or.inr hfst⟩
    rcases hexists with ⟨e, he, hcase⟩
    rw [hgr] at he
    have helook := alistGet?_of_mem _ e.1 e.2 hnd
      (by rcases e with ⟨e1, e2⟩; exact he)
    rw [hlook e.1] at helook
    have hcntpos : (relEdgesOf datasets).countP (fun t =>
        decide (matGid (ufOf datasets) (matPassOf datasets).st.1 t.1 =
          some e.1.1) &&
        decide (t.2.1 = e.1.2.1) &&
        decide (matGid (ufOf datasets) (matPassOf datasets).st.1 t.2.2 =
          some e.1.2.2)) ≠ 0 := by
      intro hzero
      rw [if_pos (by simp [hzero])] at helook
      cases helook
    have hex : ∃ t ∈ relEdgesOf datasets,
        (matGid (ufOf datasets) (matPassOf datasets).st.1 t.1 =
          some e.1.1) ∧
        (matGid (ufOf datasets) (matPassOf datasets).st.1 t.2.2 =
          some e.1.2.2) := by
      by_contra hnone
      apply hcntpos
      rw [List.countP_eq_zero]
      intro t ht hp
      rw [Bool.and_eq_true, Bool.and_eq_true] at hp
      rcases hp with ⟨⟨hd1, _⟩, hd3⟩
      rw [decide_eq_true_eq] at hd1 hd3
      exact hnone ⟨t, ht, hd1, hd3⟩
    rcases hex with ⟨t, ht, hgid1, hgid2⟩
    have hmem := build_union_find_rel_mem
      (ingest_cross_refs datasets
        (collect_feature_scopes_and_types datasets).1
        (collect_feature_scopes_and_types datasets).2).alias_edges
      (ingest_cross_refs datasets
        (collect_feature_scopes_and_types datasets).1
        (collect_feature_scopes_and_types datasets).2).rel_edges
      (collect_feature_scopes_and_types datasets).2
      (ingest_cross_refs datasets
        (collect_feature_scopes_and_types datasets).1
        (collect_feature_scopes_and_types datasets).2).inferred_type t ht
    rcases hcase with hsrc | htgt
    · exact hsrc ▸ gid_mem_groups datasets t.1 e.1.1 hmem.1 hgid1
    · exact htgt ▸ gid_mem_groups datasets t.2.2 e.1.2.2 hmem.2 hgid2
  have horph : g ∈ (match_references datasets).structural_orphans ↔
      (g ∈ (match_references datasets).groups.map (·.1) ∧
       g ∉ (match_references datasets).connected_groups) := by
    rw [AlignmentResult.structural_orphans, List.mem_filter]
    simp
  constructor
  · constructor
    · rintro (ho | hc)
      · exact (horph.mp ho).1
      · exact hconn g hc
    · intro hkeys
      by_cases hc : g ∈ (match_references datasets).connected_groups
      · exact Or.inr hc
      · exact Or.inl (horph.mpr ⟨hkeys, hc⟩)
  · constructor
    · rintro ⟨ho, hc⟩
      exact (horph.mp ho).2 hc
    · intro h
      cases h

/-! ## Claim C1 -/

/-- C1: contrary to the claim, `gid_of` never returns a group id and never
returns None: as written it evaluates `Node(namespace, ident)` — two
positional arguments for the three required dataclass fields — so every
call raises TypeError, on present and absent members alike; in
particular on a result actually produced by `match_references` (the
registry-bridging input) at a pair that is a member of a group. -/
theorem C1_gid_of_always_raises :
    (∀ (res : AlignmentResult) (ns ident : String),
      gid_of res ns ident = Except.error
        "TypeError: Node() missing 1 required positional argument") ∧
    (memberGid resBridge "rna" "sad" = some 0 ∧
     gid_of resBridge "rna" "sad" = Except.error
       "TypeError: Node() missing 1 required positional argument") :=
  ⟨fun _ _ _ => rfl, rfl, rfl⟩

/-! ## Claim C2 -/

/-- C2: persistence does not round-trip: `to_frames` reads `n.ident` from
member nodes whose field is `identifier`, so it raises AttributeError on
any result with at least one member (here a result actually produced by
`match_references`), and `from_frames` raises TypeError on any non-empty
alias frame because it calls the three-field `Node` constructor with two
arguments.  `save`/`load` call exactly these two functions. -/
theorem C2_round_trip_raises :
    (memberGid resBridge "rna" "sad" = some 0 ∧
     to_frames resBridge =
       Except.error "AttributeError: Node object has no attribute ident") ∧
    from_frames [⟨0, "rna", "sad"⟩] [] =
      Except.error "TypeError: Node() missing 1 required positional argument" :=
  ⟨⟨rfl, rfl⟩, rfl⟩

/-! ## Claim C3 -/

/-- C3 counterexample: in `dsChain`, `a` is explicitly typed "gene", `b`
is explicitly typed "protein", and an alias edge connects them directly,
yet `match_references` puts `a` and `b` in the same group: the guard
refuses the direct edge, but the chain through the untyped `x`, `y`, `w`
is accepted link by link (each link has an untyped side), which merges the
two components.  The claim's first universally quantified sentence is
therefore false as stated. -/
theorem C3_counterexample :
    (alistGet? (idTypeOf [dsChain]) ("d", "a") = some "gene" ∧
     alistGet? (idTypeOf [dsChain]) ("d", "b") = some "protein" ∧
     CrossRef.mk "a" "alias" "b" ∈ dsChain.cross_ref) ∧
    memberGid (match_references [dsChain]) "d" "a" = some 0 ∧
    memberGid (match_references [dsChain]) "d" "b" = some 0 :=
  ⟨⟨rfl, rfl, by decide⟩, rfl, rfl⟩

/-- C3 (amended): on an input consisting of exactly the two identifiers
and the single alias edge between them, the claim holds: explicit,
different, non-null types end in two different groups; one explicit type
plus one untyped endpoint are unified and the group resolves to the known
type. -/
theorem C3_merge_guard (T1 T2 : String) (h1 : T1 ≠ "") (h2 : T2 ≠ "")
    (hne : T1 ≠ T2) :
    (memberGid (match_references [dsPairTyped (some T1) (some T2)]) "d" "a"
        = some 0 ∧
     memberGid (match_references [dsPairTyped (some T1) (some T2)]) "d" "b"
        = some 1) ∧
    (memberGid (match_references [dsPairTyped (some T1) none]) "d" "a"
        = some 0 ∧
     memberGid (match_references [dsPairTyped (some T1) none]) "d" "b"
        = some 0 ∧
     memberType (match_references [dsPairTyped (some T1) none]) "d" "a"
        = some T1 ∧
     memberType (match_references [dsPairTyped (some T1) none]) "d" "b"
        = some T1) := by
  constructor
  · simp +decide [match_references, collect_feature_scopes_and_types,
      collectStep, ingest_cross_refs, ingestStep, build_union_find, aliasStep,
      touch, resolve_component_types, materialize_alignment, matStep, relStep,
      memberGid, memberType, dsPairTyped, normalize_feature_scope, pyLower,
      pyStrip, pyTruthy, alistInsert, alistGet?, key, tag_record,
      alias_target_scope, sortPair, pairLe, pyLt, alias_ok, pyOr, h1, h2, hne,
      UnionFind.find, UnionFind.union, UnionFind.findRoot, rootAux,
      listAddUnique, alistAppend, hintOf, knownHints, resolveTy, gidFor,
      nodeOf, lowerChar, pyContainsChar, pyStartsWith, pyDrop]
  · simp +decide [match_references, collect_feature_scopes_and_types,
      collectStep, ingest_cross_refs, ingestStep, build_union_find, aliasStep,
      touch, resolve_component_types, materialize_alignment, matStep, relStep,
      memberGid, memberType, dsPairTyped, normalize_feature_scope, pyLower,
      pyStrip, pyTruthy, alistInsert, alistGet?, key, tag_record,
      alias_target_scope, sortPair, pairLe, pyLt, alias_ok, pyOr, h1,
      UnionFind.find, UnionFind.union, UnionFind.findRoot, rootAux,
      listAddUnique, alistAppend, hintOf, knownHints, resolveTy, gidFor,
      nodeOf, lowerChar, pyContainsChar, pyStartsWith, pyDrop]

/-- C3 witness: the amended merge-guard theorem instantiated at the
concrete types "gene" and "protein". -/
theorem C3_merge_guard_witness :
    ("gene" ≠ "" ∧ "protein" ≠ "" ∧ "gene" ≠ "protein") ∧
    ((memberGid (match_references [dsPairTyped (some "gene") (some "protein")])
        "d" "a" = some 0 ∧
      memberGid (match_references [dsPairTyped (some "gene") (some "protein")])
        "d" "b" = some 1) ∧
     (memberGid (match_references [dsPairTyped (some "gene") none]) "d" "a"
        = some 0 ∧
      memberGid (match_references [dsPairTyped (some "gene") none]) "d" "b"
        = some 0 ∧
      memberType (match_references [dsPairTyped (some "gene") none]) "d" "a"
        = some "gene" ∧
      memberType (match_references [dsPairTyped (some "gene") none]) "d" "b"
        = some "gene")) :=
  ⟨⟨by decide, by decide, by decide⟩,
   C3_merge_guard "gene" "protein" (by decide) (by decide) (by decide)⟩

/-! ## Claim C4 -/

/-- C4 counterexample: an alias edge both of whose endpoints lack any
known (explicit or inferred) type — the case the claim explicitly
includes — is refused by `alias_ok` (`if ta is None and tb is None:
return False`), so `a` and `b` end up in two different groups, not the
same one. -/
theorem C4_counterexample :
    (hintOf (idTypeOf [dsUntypedEdge]) (inferredOf [dsUntypedEdge]) ("d", "a")
        = none ∧
     hintOf (idTypeOf [dsUntypedEdge]) (inferredOf [dsUntypedEdge]) ("d", "b")
        = none) ∧
    memberGid (match_references [dsUntypedEdge]) "d" "a" = some 0 ∧
    memberGid (match_references [dsUntypedEdge]) "d" "b" = some 1 :=
  ⟨⟨rfl, rfl⟩, rfl, rfl⟩

/-- C4 (amended): the union proceeds for an alias edge with at most one
known-typed endpoint only when at least one endpoint has a known type;
the merge guard accepts iff at least one side has a known type and the
types do not conflict (first conjunct, proved for every state of the hint
maps), and on an input with a single alias edge whose source alone is
explicitly typed the two endpoints do end up in the same group (second
conjunct). -/
theorem C4_union_requires_one_known_type (a b : ScopedID)
    (id_type inferred : List (ScopedID × String)) (T : String) (hT : T ≠ "") :
    (alias_ok a b id_type inferred =
      (!((hintOf id_type inferred a).isNone &&
         (hintOf id_type inferred b).isNone) &&
       ((hintOf id_type inferred a).isNone ||
        (hintOf id_type inferred b).isNone ||
        hintOf id_type inferred a == hintOf id_type inferred b))) ∧
    (memberGid (match_references [dsPairTyped (some T) none]) "d" "a"
        = some 0 ∧
     memberGid (match_references [dsPairTyped (some T) none]) "d" "b"
        = some 0) := by
  constructor
  · unfold alias_ok hintOf
    rcases pyOr (alistGet? id_type a) (alistGet? inferred a) with _ | ta <;>
      rcases pyOr (alistGet? id_type b) (alistGet? inferred b) with _ | tb <;>
      simp
  · simp +decide [match_references, collect_feature_scopes_and_types,
      collectStep, ingest_cross_refs, ingestStep, build_union_find, aliasStep,
      touch, resolve_component_types, materialize_alignment, matStep, relStep,
      memberGid, dsPairTyped, normalize_feature_scope, pyLower,
      pyStrip, pyTruthy, alistInsert, alistGet?, key, tag_record,
      alias_target_scope, sortPair, pairLe, pyLt, alias_ok, pyOr, hT,
      UnionFind.find, UnionFind.union, UnionFind.findRoot, rootAux,
      listAddUnique, alistAppend, hintOf, knownHints, resolveTy, gidFor,
      nodeOf, lowerChar, pyContainsChar, pyStartsWith, pyDrop]

/-- C4 witness: the amended theorem instantiated at concrete endpoints,
empty hint maps and the concrete type "gene". -/
theorem C4_union_requires_one_known_type_witness :
    ("gene" : String) ≠ "" ∧
    ((alias_ok ("d", "a") ("d", "b") [] [] =
       (!((hintOf [] [] ("d", "a")).isNone && (hintOf [] [] ("d", "b")).isNone)
        && ((hintOf [] [] ("d", "a")).isNone || (hintOf [] [] ("d", "b")).isNone
            || hintOf [] [] ("d", "a") == hintOf [] [] ("d", "b")))) ∧
     (memberGid (match_references [dsPairTyped (some "gene") none]) "d" "a"
        = some 0 ∧
      memberGid (match_references [dsPairTyped (some "gene") none]) "d" "b"
        = some 0)) :=
  ⟨by decide,
   C4_union_requires_one_known_type ("d", "a") ("d", "b") [] [] "gene"
     (by decide)⟩

/-! ## Claim C7 (counterexample; the amended theorem follows the general
correspondence lemmas further below) -/

/-- C7 counterexample: when the one distinct non-null hint of a group is
the literal string "unknown" (a perfectly truthy Python string carried by
an explicit entity field), the hint set has size 1 and yet the resolved
type is "unknown" — the claimed equivalence "resolved type `unknown` iff
hint-set size ≠ 1" fails in the right-to-left direction at this input. -/
theorem C7_counterexample :
    groupHintsOf [dsUnknownHint] 0 = some ["unknown"] ∧
    memberType (match_references [dsUnknownHint]) "d" "a" = some "unknown" ∧
    memberType (match_references [dsUnknownHint]) "d" "b" = some "unknown" :=
  ⟨rfl, rfl, rfl⟩

/-! ## Claim C8 -/

/-- C8: the registry-bridging scenario: (`geneid`,`947440`), (`rna`,`sad`)
and (`rna`,`b1525`) all land in one single group whose resolved type is
"gene". -/
theorem C8_registry_bridging :
    memberGid resBridge "geneid" "947440" = some 0 ∧
    memberGid resBridge "rna" "sad" = some 0 ∧
    memberGid resBridge "rna" "b1525" = some 0 ∧
    memberType resBridge "geneid" "947440" = some "gene" ∧
    memberType resBridge "rna" "sad" = some "gene" ∧
    memberType resBridge "rna" "b1525" = some "gene" :=
  ⟨rfl, rfl, rfl, rfl, rfl, rfl⟩

/-! ## Claim C9 -/

/-- C9: scope isolation: two datasets whose normalized names differ, each
declaring the same local-label identifier `sad` (namespace `gene`) with
the same local synonym cross-ref and no registry bridge, produce two
different groups, one per dataset scope. -/
theorem C9_scope_isolation (na nb : String)
    (hname : pyLower (pyStrip na) ≠ pyLower (pyStrip nb)) :
    memberGid (match_references [dsLocal na, dsLocal nb])
      (pyLower (pyStrip na)) "sad" = some 0 ∧
    memberGid (match_references [dsLocal na, dsLocal nb])
      (pyLower (pyStrip nb)) "sad" = some 1 := by
  have hne : na ≠ nb := fun h => hname (by rw [h])
  obtain ⟨la, hla⟩ : ∃ x, pyLower (pyStrip na) = x := ⟨_, rfl⟩
  obtain ⟨lb, hlb⟩ : ∃ x, pyLower (pyStrip nb) = x := ⟨_, rfl⟩
  rw [hla, hlb] at hname ⊢
  have hname' : lb ≠ la := hname.symm
  simp +decide [match_references, collect_feature_scopes_and_types,
    collectStep, ingest_cross_refs, ingestStep, build_union_find, aliasStep,
    touch, resolve_component_types, materialize_alignment, matStep, relStep,
    memberGid, dsLocal, normalize_feature_scope, pyTruthy, hla, hlb,
    alistInsert, alistGet?, key, tag_record, alias_target_scope, sortPair,
    pairLe, pyLt, alias_ok, pyOr, hname, hname', hne, UnionFind.find,
    UnionFind.union, UnionFind.findRoot, rootAux, listAddUnique, alistAppend,
    hintOf, knownHints, resolveTy, gidFor, nodeOf, pyContainsChar,
    pyStartsWith, pyDrop]

/-- C9 witness: the scope-isolation theorem at the concrete dataset names
"set1" and "set2". -/
theorem C9_scope_isolation_witness :
    pyLower (pyStrip "set1") ≠ pyLower (pyStrip "set2") ∧
    (memberGid (match_references [dsLocal "set1", dsLocal "set2"])
       (pyLower (pyStrip "set1")) "sad" = some 0 ∧
     memberGid (match_references [dsLocal "set1", dsLocal "set2"])
       (pyLower (pyStrip "set2")) "sad" = some 1) :=
  ⟨by decide, C9_scope_isolation "set1" "set2" (by decide)⟩

end IdAlign
